import Mathlib

/-!
Verification development for the mpack MessagePack codec.

The repository's configuration header `src/mpack/mpack-defaults.h` is embedded
directly (section: configuration defaults).  The codec, tracking, builder and
node-parser logic referenced by the specification is not present under `src/`,
so those parts are modelled from the specification's own description of the
wire format and component contracts (each such definition is marked
`Modelled from the spec:`).
-/

set_option maxRecDepth 10000

/-! ## Configuration defaults (embedding of `src/mpack/mpack-defaults.h`)

A `PreDef` records which macros the user pre-defined (and their values) before
the preprocessor reads `mpack-defaults.h`.  Each `MPACK_*` definition below
replays the corresponding `#ifndef` / `#if` block of the header, in file
order.  `none` means "not defined"; `some v` means "defined with value v".
For `MPACK_MALLOC` only definedness matters (its value is a function name),
so it is a `Bool`. -/
structure PreDef where
  reader : Option Int
  expect : Option Int
  node : Option Int
  writer : Option Int
  compatibility : Option Int
  extensions : Option Int
  stdlib : Option Int
  malloc : Bool
  hasDEBUG : Bool
  hasUnderDEBUG : Bool
  debugMacro : Option Int
  readTracking : Option Int
  writeTracking : Option Int
  pageSize : Option Nat
  nodePageSize : Option Nat
  builderPageSize : Option Nat
  nodeInitialDepth : Option Nat
  nodeMaxDepthWithoutMalloc : Option Nat

/-- Lines 50-52: `#ifndef MPACK_READER / #define MPACK_READER 1`. -/
def MPACK_READER (c : PreDef) : Int := c.reader.getD 1

/-- Lines 77-79: `#ifndef MPACK_WRITER / #define MPACK_WRITER 1`. -/
def MPACK_WRITER (c : PreDef) : Int := c.writer.getD 1

/-- Lines 110-112: `#ifndef MPACK_EXTENSIONS / #define MPACK_EXTENSIONS 0`. -/
def MPACK_EXTENSIONS (c : PreDef) : Int := c.extensions.getD 0

/-- Lines 140-142: `#ifndef MPACK_STDLIB / #define MPACK_STDLIB 1`. -/
def MPACK_STDLIB (c : PreDef) : Int := c.stdlib.getD 1

/-- Lines 197-201: `#if defined(MPACK_STDLIB) && MPACK_STDLIB &&
!defined(MPACK_MALLOC) / #define MPACK_MALLOC malloc`.  By line 197
`MPACK_STDLIB` is always defined (lines 140-142 ran first), so the result is
whether `MPACK_MALLOC` is defined after this block. -/
def MPACK_MALLOC_defined (c : PreDef) : Bool :=
  c.malloc || MPACK_STDLIB c != 0

/-- Lines 220-222: `#if !defined(MPACK_DEBUG) && (defined(DEBUG) ||
defined(_DEBUG)) / #define MPACK_DEBUG 1`.  Result: the definition state of
`MPACK_DEBUG` after this block. -/
def MPACK_DEBUG_defined (c : PreDef) : Option Int :=
  match c.debugMacro with
  | some v => some v
  | none => if c.hasDEBUG || c.hasUnderDEBUG then some 1 else none

/-- Whether `defined(MPACK_DEBUG) && MPACK_DEBUG` holds after line 222. -/
def MPACK_DEBUG_on (c : PreDef) : Bool :=
  match MPACK_DEBUG_defined c with
  | some v => v != 0
  | none => false

/-- Lines 257-262: `#if !defined(MPACK_READ_TRACKING) && defined(MPACK_DEBUG)
&& MPACK_DEBUG && defined(MPACK_READER) && MPACK_READER &&
defined(MPACK_MALLOC) / #define MPACK_READ_TRACKING 1`.  (`MPACK_READER` is
always defined by this point, lines 50-52.) -/
def MPACK_READ_TRACKING_defined (c : PreDef) : Option Int :=
  match c.readTracking with
  | some v => some v
  | none =>
    if MPACK_DEBUG_on c && MPACK_READER c != 0 && MPACK_MALLOC_defined c
    then some 1 else none

/-- Lines 278-283: the symmetric block for `MPACK_WRITE_TRACKING`, with
`MPACK_WRITER` in place of `MPACK_READER`. -/
def MPACK_WRITE_TRACKING_defined (c : PreDef) : Option Int :=
  match c.writeTracking with
  | some v => some v
  | none =>
    if MPACK_DEBUG_on c && MPACK_WRITER c != 0 && MPACK_MALLOC_defined c
    then some 1 else none

/-- Lines 371-373: `#ifndef MPACK_PAGE_SIZE / #define MPACK_PAGE_SIZE 4096`. -/
def MPACK_PAGE_SIZE (c : PreDef) : Nat := c.pageSize.getD 4096

/-- Lines 388-390: `#ifndef MPACK_NODE_PAGE_SIZE / #define MPACK_NODE_PAGE_SIZE
MPACK_PAGE_SIZE`. -/
def MPACK_NODE_PAGE_SIZE (c : PreDef) : Nat :=
  c.nodePageSize.getD (MPACK_PAGE_SIZE c)

/-- Lines 398-401: `#ifndef MPACK_BUILDER_PAGE_SIZE`; the line
`#define MPACK_BUILDER_PAGE_SIZE MPACK_PAGE_SIZE` is commented out and the
live line is `#define MPACK_BUILDER_PAGE_SIZE 99`. -/
def MPACK_BUILDER_PAGE_SIZE (c : PreDef) : Nat :=
  c.builderPageSize.getD 99

/-- Lines 427-429: `#ifndef MPACK_NODE_INITIAL_DEPTH / #define
MPACK_NODE_INITIAL_DEPTH 8`. -/
def MPACK_NODE_INITIAL_DEPTH (c : PreDef) : Nat :=
  c.nodeInitialDepth.getD 8

/-- Lines 434-436: `#ifndef MPACK_NODE_MAX_DEPTH_WITHOUT_MALLOC / #define
MPACK_NODE_MAX_DEPTH_WITHOUT_MALLOC 32`. -/
def MPACK_NODE_MAX_DEPTH_WITHOUT_MALLOC (c : PreDef) : Nat :=
  c.nodeMaxDepthWithoutMalloc.getD 32

/-- The wholly-default configuration: nothing pre-defined, `DEBUG`/`_DEBUG`
absent. -/
def defaultPreDef : PreDef :=
  { reader := none, expect := none, node := none, writer := none
    compatibility := none, extensions := none, stdlib := none
    malloc := false, hasDEBUG := false, hasUnderDEBUG := false
    debugMacro := none, readTracking := none, writeTracking := none
    pageSize := none, nodePageSize := none, builderPageSize := none
    nodeInitialDepth := none, nodeMaxDepthWithoutMalloc := none }

/-! ## Byte-stream primitives

Bytes are `Nat`s below 256.  `beBytes k n` is the big-endian `k`-byte
serialization of `n` (mod `256^k`); `readBE` folds bytes back into a `Nat`.
These model the fixed byte order of the MessagePack wire format. -/

/-- Error taxonomy of the specification (section 7), restricted to the error
kinds the modelled components signal. -/
inductive MErr : Type where
  | invalidData : MErr
  | truncated : MErr
  | tooBig : MErr
  | tooDeep : MErr
  | resourceError : MErr
deriving DecidableEq, Repr

/-- Big-endian bytes of `n`, `k` bytes wide (the value is taken mod `256^k`). -/
def beBytes : Nat → Nat → List Nat
  | 0, _ => []
  | k + 1, n => n / 256 ^ k % 256 :: beBytes k n

/-- Read `k` big-endian bytes, accumulating into `acc`. -/
def readBE : Nat → Nat → List Nat → Except MErr (Nat × List Nat)
  | 0, acc, bs => .ok (acc, bs)
  | _ + 1, _, [] => .error .truncated
  | k + 1, acc, b :: bs => readBE k (acc * 256 + b) bs

/-- Take exactly `n` payload bytes from the stream. -/
def takeExact : Nat → List Nat → Except MErr (List Nat × List Nat)
  | 0, bs => .ok ([], bs)
  | _ + 1, [] => .error .truncated
  | n + 1, b :: bs =>
    match takeExact n bs with
    | .error e => .error e
    | .ok (s, r) => .ok (b :: s, r)

/-! ## MessagePack values

Modelled from the spec: the Tag data model of section 3 ("Nil, Bool, Int /
UInt, Float, Double, Str, Bin, Array, Map"), with compound values carrying
their fully parsed children as the node tree does.  Floats and doubles are
carried as their raw IEEE-754 bit patterns, per section 4.1 ("encoded as raw
IEEE-754 bit patterns in a fixed byte order"); the codec never interprets
them numerically.  Integers are canonically split: `uint` for non-negative
values, `int` for negative ones, matching the encoder's choice of unsigned
forms for every non-negative value.  Ext is omitted: the configuration under
verification has `MPACK_EXTENSIONS` disabled, where ext tags flag
`mpack_error_invalid` (header lines 98-112). -/
inductive MVal : Type where
  | nil : MVal
  | bool (b : Bool) : MVal
  | uint (n : Nat) : MVal
  | int (i : Int) : MVal
  | float32 (bits : Nat) : MVal
  | float64 (bits : Nat) : MVal
  | str (s : List Nat) : MVal
  | bin (s : List Nat) : MVal
  | arr (vs : List MVal) : MVal
  | map (kvs : List (MVal × MVal)) : MVal

mutual
/-- Number of element headers in a value (used as decoding fuel). -/
def sizeV : MVal → Nat
  | .arr vs => 1 + sizeL vs
  | .map kvs => 1 + sizeP kvs
  | _ => 1

def sizeL : List MVal → Nat
  | [] => 0
  | v :: vs => sizeV v + sizeL vs

def sizeP : List (MVal × MVal) → Nat
  | [] => 0
  | (k, v) :: kvs => sizeV k + sizeV v + sizeP kvs
end

mutual
/-- Nesting depth of arrays/maps (the compounds that occupy node-parser
stack frames); scalars, strings and blobs have depth 0. -/
def depthV : MVal → Nat
  | .arr vs => 1 + depthL vs
  | .map kvs => 1 + depthP kvs
  | _ => 0

def depthL : List MVal → Nat
  | [] => 0
  | v :: vs => max (depthV v) (depthL vs)

def depthP : List (MVal × MVal) → Nat
  | [] => 0
  | (k, v) :: kvs => max (max (depthV k) (depthV v)) (depthP kvs)
end

mutual
/-- Representable values: integers fit 64 bits, lengths and counts fit the
widest wire form (32 bits), bytes are bytes. -/
def reprV : MVal → Bool
  | .nil => true
  | .bool _ => true
  | .uint n => n < 2 ^ 64
  | .int i => decide (-(2 ^ 63) ≤ i) && decide (i < 0)
  | .float32 bits => bits < 2 ^ 32
  | .float64 bits => bits < 2 ^ 64
  | .str s => decide (s.length < 2 ^ 32) && s.all (· < 256)
  | .bin s => decide (s.length < 2 ^ 32) && s.all (· < 256)
  | .arr vs => decide (vs.length < 2 ^ 32) && reprL vs
  | .map kvs => decide (kvs.length < 2 ^ 32) && reprP kvs

def reprL : List MVal → Bool
  | [] => true
  | v :: vs => reprV v && reprL vs

def reprP : List (MVal × MVal) → Bool
  | [] => true
  | (k, v) :: kvs => reprV k && reprV v && reprP kvs
end

/-! ## Encoder

Modelled from the spec: section 4.1, "Encoding chooses the shortest valid
representation for integers (fixed small-int encodings, then 8/16/32/64-bit
forms, signed vs. unsigned selected by value range)", and the wire-format
byte layout of section 6. -/

/-- Header for a string of `n` bytes: fixstr, str8, str16 or str32. -/
def strHeader (n : Nat) : List Nat :=
  if n ≤ 31 then [0xa0 + n]
  else if n < 2 ^ 8 then 0xd9 :: beBytes 1 n
  else if n < 2 ^ 16 then 0xda :: beBytes 2 n
  else 0xdb :: beBytes 4 n

/-- Header for a binary blob of `n` bytes: bin8, bin16 or bin32. -/
def binHeader (n : Nat) : List Nat :=
  if n < 2 ^ 8 then 0xc4 :: beBytes 1 n
  else if n < 2 ^ 16 then 0xc5 :: beBytes 2 n
  else 0xc6 :: beBytes 4 n

/-- Header for an array of `n` elements: fixarray, array16 or array32. -/
def arrHeader (n : Nat) : List Nat :=
  if n ≤ 15 then [0x90 + n]
  else if n < 2 ^ 16 then 0xdc :: beBytes 2 n
  else 0xdd :: beBytes 4 n

/-- Header for a map of `n` pairs: fixmap, map16 or map32. -/
def mapHeader (n : Nat) : List Nat :=
  if n ≤ 15 then [0x80 + n]
  else if n < 2 ^ 16 then 0xde :: beBytes 2 n
  else 0xdf :: beBytes 4 n

mutual
/-- Modelled from the spec: minimal-width MessagePack encoding of one value
followed by its payload/children (the writer's output for that value). -/
def encodeVal : MVal → List Nat
  | .nil => [0xc0]
  | .bool false => [0xc2]
  | .bool true => [0xc3]
  | .uint n =>
    if n ≤ 0x7f then [n]
    else if n < 2 ^ 8 then 0xcc :: beBytes 1 n
    else if n < 2 ^ 16 then 0xcd :: beBytes 2 n
    else if n < 2 ^ 32 then 0xce :: beBytes 4 n
    else 0xcf :: beBytes 8 n
  | .int i =>
    if -32 ≤ i then [(i + 2 ^ 8).toNat]
    else if -(2 ^ 7) ≤ i then 0xd0 :: beBytes 1 (i + 2 ^ 8).toNat
    else if -(2 ^ 15) ≤ i then 0xd1 :: beBytes 2 (i + 2 ^ 16).toNat
    else if -(2 ^ 31) ≤ i then 0xd2 :: beBytes 4 (i + 2 ^ 32).toNat
    else 0xd3 :: beBytes 8 (i + 2 ^ 64).toNat
  | .float32 bits => 0xca :: beBytes 4 bits
  | .float64 bits => 0xcb :: beBytes 8 bits
  | .str s => strHeader s.length ++ s
  | .bin s => binHeader s.length ++ s
  | .arr vs => arrHeader vs.length ++ encodeL vs
  | .map kvs => mapHeader kvs.length ++ encodeP kvs

def encodeL : List MVal → List Nat
  | [] => []
  | v :: vs => encodeVal v ++ encodeL vs

def encodeP : List (MVal × MVal) → List Nat
  | [] => []
  | (k, v) :: kvs => encodeVal k ++ (encodeVal v ++ encodeP kvs)
end

/-! ## Decoder

Modelled from the spec: sections 4.1 (tag decode, "decoding must accept all
defined widths"), 4.4 (node parser with an explicit depth bound) and 6 (the
marker-byte layout `0xC0`-`0xFF`).  `md = none` is the incremental reader
(no depth ceiling); `md = some M` is the node parser without `MPACK_MALLOC`,
which flags "too deep" when nesting would exceed `M`.  Fuel is structural;
any fuel at least the value's `sizeV` suffices. -/

/-- Map the value component of a decode result. -/
def emap (f : α → MVal) : Except MErr (α × List Nat) → Except MErr (MVal × List Nat)
  | .error e => .error e
  | .ok (a, r) => .ok (f a, r)

/-- Sequence a decode step into a continuation on value and rest-of-stream. -/
def ebind (x : Except MErr (α × List Nat))
    (f : α → List Nat → Except MErr (β × List Nat)) : Except MErr (β × List Nat) :=
  match x with
  | .error e => .error e
  | .ok (a, r) => f a r

/-- Depth gate of the node parser: entering a compound whose nesting depth
would be `d` fails with `tooDeep` when `d` exceeds the ceiling. -/
def checkDepth (md : Option Nat) (d : Nat) : Except MErr Unit :=
  match md with
  | none => .ok ()
  | some m => if d ≤ m then .ok () else .error .tooDeep

/-- Decode `n` consecutive elements with the element decoder `dec`. -/
def decodeList (dec : List Nat → Except MErr (MVal × List Nat)) :
    Nat → List Nat → Except MErr (List MVal × List Nat)
  | 0, bs => .ok ([], bs)
  | n + 1, bs =>
    match dec bs with
    | .error e => .error e
    | .ok (v, bs1) =>
      match decodeList dec n bs1 with
      | .error e => .error e
      | .ok (vs, bs2) => .ok (v :: vs, bs2)

/-- Decode `n` consecutive key/value pairs with the element decoder `dec`. -/
def decodePairs (dec : List Nat → Except MErr (MVal × List Nat)) :
    Nat → List Nat → Except MErr (List (MVal × MVal) × List Nat)
  | 0, bs => .ok ([], bs)
  | n + 1, bs =>
    match dec bs with
    | .error e => .error e
    | .ok (k, bs1) =>
      match dec bs1 with
      | .error e => .error e
      | .ok (v, bs2) =>
        match decodePairs dec n bs2 with
        | .error e => .error e
        | .ok (kvs, bs3) => .ok ((k, v) :: kvs, bs3)

/-- Interpret `m` as a `k`-byte two's-complement integer. -/
def toSigned (k m : Nat) : Int :=
  if m < 2 ^ (8 * k - 1) then (m : Int) else (m : Int) - 2 ^ (8 * k)

/-- Modelled from the spec: decode one MessagePack value (tag, payload and
children).  `md` is the optional nesting-depth ceiling at current depth `d`;
ext markers (`0xc7`-`0xc9`, `0xd4`-`0xd8`) flag invalid data because
extensions are disabled (`MPACK_EXTENSIONS` defaults to 0, header lines
98-112); `0xc1` is the reserved never-used byte. -/
def decodeVal (md : Option Nat) : Nat → Nat → List Nat → Except MErr (MVal × List Nat)
  | 0, _, _ => .error .truncated
  | _ + 1, _, [] => .error .truncated
  | fuel + 1, d, b :: bs =>
    if b ≤ 0x7f then .ok (.uint b, bs)
    else if b ≤ 0x8f then
      match checkDepth md (d + 1) with
      | .error e => .error e
      | .ok _ => emap .map (decodePairs (decodeVal md fuel (d + 1)) (b - 0x80) bs)
    else if b ≤ 0x9f then
      match checkDepth md (d + 1) with
      | .error e => .error e
      | .ok _ => emap .arr (decodeList (decodeVal md fuel (d + 1)) (b - 0x90) bs)
    else if b ≤ 0xbf then emap .str (takeExact (b - 0xa0) bs)
    else if b = 0xc0 then .ok (.nil, bs)
    else if b = 0xc1 then .error .invalidData
    else if b = 0xc2 then .ok (.bool false, bs)
    else if b = 0xc3 then .ok (.bool true, bs)
    else if b = 0xc4 then ebind (readBE 1 0 bs) fun n r => emap .bin (takeExact n r)
    else if b = 0xc5 then ebind (readBE 2 0 bs) fun n r => emap .bin (takeExact n r)
    else if b = 0xc6 then ebind (readBE 4 0 bs) fun n r => emap .bin (takeExact n r)
    else if b ≤ 0xc9 then .error .invalidData
    else if b = 0xca then emap .float32 (readBE 4 0 bs)
    else if b = 0xcb then emap .float64 (readBE 8 0 bs)
    else if b = 0xcc then emap .uint (readBE 1 0 bs)
    else if b = 0xcd then emap .uint (readBE 2 0 bs)
    else if b = 0xce then emap .uint (readBE 4 0 bs)
    else if b = 0xcf then emap .uint (readBE 8 0 bs)
    else if b = 0xd0 then emap (fun m => .int (toSigned 1 m)) (readBE 1 0 bs)
    else if b = 0xd1 then emap (fun m => .int (toSigned 2 m)) (readBE 2 0 bs)
    else if b = 0xd2 then emap (fun m => .int (toSigned 4 m)) (readBE 4 0 bs)
    else if b = 0xd3 then emap (fun m => .int (toSigned 8 m)) (readBE 8 0 bs)
    else if b ≤ 0xd8 then .error .invalidData
    else if b = 0xd9 then ebind (readBE 1 0 bs) fun n r => emap .str (takeExact n r)
    else if b = 0xda then ebind (readBE 2 0 bs) fun n r => emap .str (takeExact n r)
    else if b = 0xdb then ebind (readBE 4 0 bs) fun n r => emap .str (takeExact n r)
    else if b = 0xdc then
      ebind (readBE 2 0 bs) fun n r =>
        match checkDepth md (d + 1) with
        | .error e => .error e
        | .ok _ => emap .arr (decodeList (decodeVal md fuel (d + 1)) n r)
    else if b = 0xdd then
      ebind (readBE 4 0 bs) fun n r =>
        match checkDepth md (d + 1) with
        | .error e => .error e
        | .ok _ => emap .arr (decodeList (decodeVal md fuel (d + 1)) n r)
    else if b = 0xde then
      ebind (readBE 2 0 bs) fun n r =>
        match checkDepth md (d + 1) with
        | .error e => .error e
        | .ok _ => emap .map (decodePairs (decodeVal md fuel (d + 1)) n r)
    else if b = 0xdf then
      ebind (readBE 4 0 bs) fun n r =>
        match checkDepth md (d + 1) with
        | .error e => .error e
        | .ok _ => emap .map (decodePairs (decodeVal md fuel (d + 1)) n r)
    else if b ≤ 0xff then .ok (.int ((b : Int) - 2 ^ 8), bs)
    else .error .invalidData

/-- Whether an ext marker starts at `b`: ext8/16/32 or fixext1/2/4/8/16. -/
def isExtMarker (b : Nat) : Bool :=
  (0xc7 ≤ b && b ≤ 0xc9) || (0xd4 ≤ b && b ≤ 0xd8)

/-- Depth-ceiling test: `d` is within the optional ceiling. -/
def depthLe (md : Option Nat) (d : Nat) : Bool :=
  match md with
  | none => true
  | some m => d ≤ m

/-! ## Claims on the codec -/

/-- A nested array chain of the given depth, ending in nil. -/
def nestArr : Nat → MVal
  | 0 => .nil
  | n + 1 => .arr [nestArr n]

/-! ## Floats as raw bit patterns (claim C8) -/

/-- Modelled from the spec: with `MPACK_FLOAT` disabled, a float tag's
4-byte payload is read as a raw 32-bit unsigned pattern, with no numeric
interpretation and no rejection (pass-through mode). -/
def mpack_read_raw_float (bs : List Nat) : Except MErr (Nat × List Nat) :=
  match bs with
  | 0xca :: rest => readBE 4 0 rest
  | _ => .error .invalidData

/-- Modelled from the spec: with `MPACK_FLOAT` disabled, a raw 32-bit
unsigned pattern is written back unchanged under a float tag. -/
def mpack_write_raw_float (bits : Nat) : List Nat := 0xca :: beBytes 4 bits

/-- Modelled from the spec: with `MPACK_DOUBLE` disabled, a double tag's
8-byte payload is read as a raw unsigned pattern (pass-through mode). -/
def mpack_read_raw_double (bs : List Nat) : Except MErr (Nat × List Nat) :=
  match bs with
  | 0xcb :: rest => readBE 8 0 rest
  | _ => .error .invalidData

/-- Modelled from the spec: with `MPACK_DOUBLE` disabled, a raw unsigned
pattern is written back unchanged under a double tag. -/
def mpack_write_raw_double (bits : Nat) : List Nat := 0xcb :: beBytes 8 bits

/-! ## Minimal integer encodings (claim C3) -/

/-- All defined MessagePack unsigned-integer encodings whose declared range
covers `n` (positive fixint, uint8, uint16, uint32, uint64), narrowest
first. -/
def uintWidths (n : Nat) : List (List Nat) :=
  if n ≤ 0x7f then
    [[n], 0xcc :: beBytes 1 n, 0xcd :: beBytes 2 n, 0xce :: beBytes 4 n,
     0xcf :: beBytes 8 n]
  else if n < 2 ^ 8 then
    [0xcc :: beBytes 1 n, 0xcd :: beBytes 2 n, 0xce :: beBytes 4 n,
     0xcf :: beBytes 8 n]
  else if n < 2 ^ 16 then
    [0xcd :: beBytes 2 n, 0xce :: beBytes 4 n, 0xcf :: beBytes 8 n]
  else if n < 2 ^ 32 then
    [0xce :: beBytes 4 n, 0xcf :: beBytes 8 n]
  else [0xcf :: beBytes 8 n]

/-- All defined MessagePack signed encodings whose declared range covers the
negative integer `i` (negative fixint, int8, int16, int32, int64), narrowest
first. -/
def intWidths (i : Int) : List (List Nat) :=
  if -32 ≤ i then
    [[(i + 2 ^ 8).toNat], 0xd0 :: beBytes 1 (i + 2 ^ 8).toNat,
     0xd1 :: beBytes 2 (i + 2 ^ 16).toNat, 0xd2 :: beBytes 4 (i + 2 ^ 32).toNat,
     0xd3 :: beBytes 8 (i + 2 ^ 64).toNat]
  else if -(2 ^ 7) ≤ i then
    [0xd0 :: beBytes 1 (i + 2 ^ 8).toNat, 0xd1 :: beBytes 2 (i + 2 ^ 16).toNat,
     0xd2 :: beBytes 4 (i + 2 ^ 32).toNat, 0xd3 :: beBytes 8 (i + 2 ^ 64).toNat]
  else if -(2 ^ 15) ≤ i then
    [0xd1 :: beBytes 2 (i + 2 ^ 16).toNat, 0xd2 :: beBytes 4 (i + 2 ^ 32).toNat,
     0xd3 :: beBytes 8 (i + 2 ^ 64).toNat]
  else if -(2 ^ 31) ≤ i then
    [0xd2 :: beBytes 4 (i + 2 ^ 32).toNat, 0xd3 :: beBytes 8 (i + 2 ^ 64).toNat]
  else [0xd3 :: beBytes 8 (i + 2 ^ 64).toNat]

/-! ## Builder (claim C1) -/

/-- Modelled from the spec: a builder session's buffered state — closed
pages in write order, the currently filling page, and the number of
top-level values appended so far (the deferred element count). -/
structure MBuilder : Type where
  pages : List (List Nat)
  cur : List Nat
  count : Nat

/-- A fresh builder opened by `begin_build`. -/
def mpack_builder_begin : MBuilder := ⟨[], [], 0⟩

/-- Modelled from the spec: append one value's encoded bytes to the builder
buffer.  Bytes go into the current page if they fit within the configured
page size; otherwise a new page is started (larger than the minimum only
when the one value itself is larger).  Pages already written are never
moved or reallocated. -/
def builder_append (pageSize : Nat) (st : MBuilder) (bs : List Nat) : MBuilder :=
  if st.cur.length + bs.length ≤ pageSize then
    { st with cur := st.cur ++ bs, count := st.count + 1 }
  else
    { pages := st.pages ++ [st.cur], cur := bs, count := st.count + 1 }

/-- The buffered bytes of a builder, in page order. -/
def builder_flush (st : MBuilder) : List Nat := st.pages.flatten ++ st.cur

/-- Modelled from the spec: `begin_build` for an array, append each value of
`vs`, then `end_build`: the final count is the number of appended values,
the compound header is prefixed, and the buffered page contents follow in
order, unmodified. -/
def mpack_build_array (pageSize : Nat) (vs : List MVal) : List Nat :=
  let st := vs.foldl (fun st v => builder_append pageSize st (encodeVal v))
    mpack_builder_begin
  arrHeader st.count ++ builder_flush st

/-! ## Tracking stack (claim C4) -/

/-- Compound kinds recorded on the tracking stack (spec section 3). -/
inductive TrackKind : Type where
  | array : TrackKind
  | map : TrackKind
  | str : TrackKind
  | bin : TrackKind
deriving DecidableEq, Repr

/-- One open compound: its kind and the count of elements or bytes not yet
consumed/produced. -/
structure TrackFrame : Type where
  kind : TrackKind
  remaining : Nat
deriving DecidableEq, Repr

/-- Errors signalled by the tracking stack. -/
inductive TrackErr : Type where
  | prematureWrite : TrackErr
  | prematureClose : TrackErr
  | noOpenCompound : TrackErr
deriving DecidableEq, Repr

/-- Modelled from the spec: `open(kind, count)` pushes a new frame. -/
def mpack_track_open (k : TrackKind) (count : Nat) (st : List TrackFrame) :
    List TrackFrame :=
  ⟨k, count⟩ :: st

/-- Modelled from the spec: `consume(1)` decrements the top frame's
remaining; writing or reading an element beyond the declared count fails
with a premature-write/overflow error.  At root level (no open compound)
elements pass untracked. -/
def mpack_track_element : List TrackFrame → Except TrackErr (List TrackFrame)
  | [] => .ok []
  | f :: st =>
    if f.remaining = 0 then .error .prematureWrite
    else .ok ({ f with remaining := f.remaining - 1 } :: st)

/-- Modelled from the spec: `close()` pops the top frame only if its
remaining count is zero, else fails with a premature-close error (leaving
the frame in place). -/
def mpack_track_close : List TrackFrame → Except TrackErr (List TrackFrame)
  | [] => .error .noOpenCompound
  | f :: st => if f.remaining = 0 then .ok st else .error .prematureClose

/-- Consume `n` elements in sequence. -/
def mpack_track_elements : Nat → List TrackFrame → Except TrackErr (List TrackFrame)
  | 0, st => .ok st
  | n + 1, st =>
    match mpack_track_element st with
    | .error e => .error e
    | .ok st1 => mpack_track_elements n st1

/-! ## Sticky errors (claim C5) -/

/-- Modelled from the spec: the observable state of one reader / writer /
tree / builder instance — its error flag (`none` = ok), its remaining input
and its produced output. -/
structure MSession : Type where
  err : Option MErr
  input : List Nat
  output : List Nat
deriving DecidableEq, Repr

/-- Operations a caller can drive an instance with. -/
inductive MOp : Type where
  | readByte : MOp
  | writeByte (b : Nat) : MOp
  | flag (e : MErr) : MOp
deriving DecidableEq, Repr

/-- Modelled from the spec: every operation first checks for the terminal
error variant and passes it through unchanged (sticky-error discipline);
only an ok instance acts — reading consumes input (flagging `truncated` at
end of data), writing appends output, and a detected error sets the flag. -/
def session_step (s : MSession) (op : MOp) : Option MErr × MSession :=
  match s.err with
  | some e => (some e, s)
  | none =>
    match op with
    | .readByte =>
      match s.input with
      | [] => (some .truncated, { s with err := some .truncated })
      | _ :: t => (none, { s with input := t })
    | .writeByte b => (none, { s with output := s.output ++ [b] })
    | .flag e => (some e, { s with err := some e })

/-- Run a sequence of operations, threading the state. -/
def session_run (s : MSession) : List MOp → MSession
  | [] => s
  | op :: ops => session_run (session_step s op).2 ops

theorem beBytes_length (k n : Nat) : (beBytes k n).length = k := by
  induction k generalizing n with
  | zero => rfl
  | succ k ih => simp [beBytes, ih]

theorem mod_mul_decomp (n a b : Nat) : n % (a * b) = a * (n / a % b) + n % a := by
  conv_lhs => rw [← Nat.div_add_mod (n % (a * b)) a]
  rw [Nat.mod_mul_right_div_self, Nat.mod_mod_of_dvd _ ⟨b, rfl⟩]

theorem readBE_beBytes (k : Nat) :
    ∀ acc n rest, readBE k acc (beBytes k n ++ rest) =
      .ok (acc * 256 ^ k + n % 256 ^ k, rest) := by
  induction k with
  | zero => intro acc n rest; simp [beBytes, readBE, Nat.mod_one]
  | succ k ih =>
    intro acc n rest
    have h256 : (256 : Nat) ^ (k + 1) = 256 ^ k * 256 := by ring
    have harith : (acc * 256 + n / 256 ^ k % 256) * 256 ^ k + n % 256 ^ k
        = acc * 256 ^ (k + 1) + n % 256 ^ (k + 1) := by
      rw [h256, mod_mul_decomp n (256 ^ k) 256]; ring
    simp only [beBytes, List.cons_append, readBE, List.append_eq, ih, harith]

theorem readBE_beBytes_lt {k n : Nat} (h : n < 256 ^ k) (rest : List Nat) :
    readBE k 0 (beBytes k n ++ rest) = .ok (n, rest) := by
  rw [readBE_beBytes, Nat.mod_eq_of_lt h]
  simp

theorem readBE_beBytes_self {k n : Nat} (h : n < 256 ^ k) :
    readBE k 0 (beBytes k n) = .ok (n, []) := by
  have e := readBE_beBytes_lt h []
  simpa using e

theorem takeExact_append (s rest : List Nat) :
    takeExact s.length (s ++ rest) = .ok (s, rest) := by
  induction s with
  | nil => simp [takeExact]
  | cons b s ih => simp [takeExact, ih]

/-! ## Decoder head lemmas: one per marker family -/

theorem emap_ok (f : α → MVal) (a : α) (r : List Nat) :
    emap f (.ok (a, r)) = .ok (f a, r) := rfl

theorem emap_error (f : α → MVal) (e : MErr) :
    emap f (.error e) = .error e := rfl

theorem ebind_ok (a : α) (r : List Nat)
    (f : α → List Nat → Except MErr (β × List Nat)) :
    ebind (.ok (a, r)) f = f a r := rfl

theorem ebind_error (e : MErr) (f : α → List Nat → Except MErr (β × List Nat)) :
    ebind (.error e) f = .error e := rfl

theorem decodeVal_fixuint (md : Option Nat) (fuel d : Nat) {b : Nat}
    (h : b ≤ 0x7f) (bs : List Nat) :
    decodeVal md (fuel + 1) d (b :: bs) = .ok (.uint b, bs) := by
  simp [decodeVal, h]

theorem decodeVal_fixmap (md : Option Nat) (fuel d : Nat) {n : Nat} (h : n ≤ 15)
    (hd : checkDepth md (d + 1) = .ok ()) (bs : List Nat) :
    decodeVal md (fuel + 1) d ((0x80 + n) :: bs)
      = emap .map (decodePairs (decodeVal md fuel (d + 1)) n bs) := by
  have h1 : ¬(0x80 + n ≤ 0x7f) := by omega
  have h2 : 0x80 + n ≤ 0x8f := by omega
  simp only [decodeVal, if_neg h1, if_pos h2, hd,
    show 0x80 + n - 0x80 = n from by omega]

theorem decodeVal_fixarr (md : Option Nat) (fuel d : Nat) {n : Nat} (h : n ≤ 15)
    (hd : checkDepth md (d + 1) = .ok ()) (bs : List Nat) :
    decodeVal md (fuel + 1) d ((0x90 + n) :: bs)
      = emap .arr (decodeList (decodeVal md fuel (d + 1)) n bs) := by
  have h1 : ¬(0x90 + n ≤ 0x7f) := by omega
  have h2 : ¬(0x90 + n ≤ 0x8f) := by omega
  have h3 : 0x90 + n ≤ 0x9f := by omega
  simp only [decodeVal, if_neg h1, if_neg h2, if_pos h3, hd,
    show 0x90 + n - 0x90 = n from by omega]

theorem decodeVal_fixstr (md : Option Nat) (fuel d : Nat) {n : Nat} (h : n ≤ 31)
    (bs : List Nat) :
    decodeVal md (fuel + 1) d ((0xa0 + n) :: bs) = emap .str (takeExact n bs) := by
  have h1 : ¬(0xa0 + n ≤ 0x7f) := by omega
  have h2 : ¬(0xa0 + n ≤ 0x8f) := by omega
  have h3 : ¬(0xa0 + n ≤ 0x9f) := by omega
  have h4 : 0xa0 + n ≤ 0xbf := by omega
  simp only [decodeVal, if_neg h1, if_neg h2, if_neg h3, if_pos h4,
    show 0xa0 + n - 0xa0 = n from by omega]

theorem decodeVal_nil (md : Option Nat) (fuel d : Nat) (bs : List Nat) :
    decodeVal md (fuel + 1) d (0xc0 :: bs) = .ok (.nil, bs) := by
  simp [decodeVal]

theorem decodeVal_false (md : Option Nat) (fuel d : Nat) (bs : List Nat) :
    decodeVal md (fuel + 1) d (0xc2 :: bs) = .ok (.bool false, bs) := by
  simp [decodeVal]

theorem decodeVal_true (md : Option Nat) (fuel d : Nat) (bs : List Nat) :
    decodeVal md (fuel + 1) d (0xc3 :: bs) = .ok (.bool true, bs) := by
  simp [decodeVal]

theorem decodeVal_bin8 (md : Option Nat) (fuel d : Nat) (bs : List Nat) :
    decodeVal md (fuel + 1) d (0xc4 :: bs)
      = ebind (readBE 1 0 bs) fun n r => emap .bin (takeExact n r) := by
  simp [decodeVal]

theorem decodeVal_bin16 (md : Option Nat) (fuel d : Nat) (bs : List Nat) :
    decodeVal md (fuel + 1) d (0xc5 :: bs)
      = ebind (readBE 2 0 bs) fun n r => emap .bin (takeExact n r) := by
  simp [decodeVal]

theorem decodeVal_bin32 (md : Option Nat) (fuel d : Nat) (bs : List Nat) :
    decodeVal md (fuel + 1) d (0xc6 :: bs)
      = ebind (readBE 4 0 bs) fun n r => emap .bin (takeExact n r) := by
  simp [decodeVal]

theorem decodeVal_float (md : Option Nat) (fuel d : Nat) (bs : List Nat) :
    decodeVal md (fuel + 1) d (0xca :: bs) = emap .float32 (readBE 4 0 bs) := by
  simp [decodeVal]

theorem decodeVal_double (md : Option Nat) (fuel d : Nat) (bs : List Nat) :
    decodeVal md (fuel + 1) d (0xcb :: bs) = emap .float64 (readBE 8 0 bs) := by
  simp [decodeVal]

theorem decodeVal_uint8 (md : Option Nat) (fuel d : Nat) (bs : List Nat) :
    decodeVal md (fuel + 1) d (0xcc :: bs) = emap .uint (readBE 1 0 bs) := by
  simp [decodeVal]

theorem decodeVal_uint16 (md : Option Nat) (fuel d : Nat) (bs : List Nat) :
    decodeVal md (fuel + 1) d (0xcd :: bs) = emap .uint (readBE 2 0 bs) := by
  simp [decodeVal]

theorem decodeVal_uint32 (md : Option Nat) (fuel d : Nat) (bs : List Nat) :
    decodeVal md (fuel + 1) d (0xce :: bs) = emap .uint (readBE 4 0 bs) := by
  simp [decodeVal]

theorem decodeVal_uint64 (md : Option Nat) (fuel d : Nat) (bs : List Nat) :
    decodeVal md (fuel + 1) d (0xcf :: bs) = emap .uint (readBE 8 0 bs) := by
  simp [decodeVal]

theorem decodeVal_int8 (md : Option Nat) (fuel d : Nat) (bs : List Nat) :
    decodeVal md (fuel + 1) d (0xd0 :: bs)
      = emap (fun m => .int (toSigned 1 m)) (readBE 1 0 bs) := by
  simp [decodeVal]

theorem decodeVal_int16 (md : Option Nat) (fuel d : Nat) (bs : List Nat) :
    decodeVal md (fuel + 1) d (0xd1 :: bs)
      = emap (fun m => .int (toSigned 2 m)) (readBE 2 0 bs) := by
  simp [decodeVal]

theorem decodeVal_int32 (md : Option Nat) (fuel d : Nat) (bs : List Nat) :
    decodeVal md (fuel + 1) d (0xd2 :: bs)
      = emap (fun m => .int (toSigned 4 m)) (readBE 4 0 bs) := by
  simp [decodeVal]

theorem decodeVal_int64 (md : Option Nat) (fuel d : Nat) (bs : List Nat) :
    decodeVal md (fuel + 1) d (0xd3 :: bs)
      = emap (fun m => .int (toSigned 8 m)) (readBE 8 0 bs) := by
  simp [decodeVal]

theorem decodeVal_str8 (md : Option Nat) (fuel d : Nat) (bs : List Nat) :
    decodeVal md (fuel + 1) d (0xd9 :: bs)
      = ebind (readBE 1 0 bs) fun n r => emap .str (takeExact n r) := by
  simp [decodeVal]

theorem decodeVal_str16 (md : Option Nat) (fuel d : Nat) (bs : List Nat) :
    decodeVal md (fuel + 1) d (0xda :: bs)
      = ebind (readBE 2 0 bs) fun n r => emap .str (takeExact n r) := by
  simp [decodeVal]

theorem decodeVal_str32 (md : Option Nat) (fuel d : Nat) (bs : List Nat) :
    decodeVal md (fuel + 1) d (0xdb :: bs)
      = ebind (readBE 4 0 bs) fun n r => emap .str (takeExact n r) := by
  simp [decodeVal]

theorem decodeVal_arr16 (md : Option Nat) (fuel d : Nat) (bs : List Nat) :
    decodeVal md (fuel + 1) d (0xdc :: bs)
      = ebind (readBE 2 0 bs) (fun n r =>
          match checkDepth md (d + 1) with
          | .error e => .error e
          | .ok _ => emap .arr (decodeList (decodeVal md fuel (d + 1)) n r)) := by
  simp [decodeVal]

theorem decodeVal_arr32 (md : Option Nat) (fuel d : Nat) (bs : List Nat) :
    decodeVal md (fuel + 1) d (0xdd :: bs)
      = ebind (readBE 4 0 bs) (fun n r =>
          match checkDepth md (d + 1) with
          | .error e => .error e
          | .ok _ => emap .arr (decodeList (decodeVal md fuel (d + 1)) n r)) := by
  simp [decodeVal]

theorem decodeVal_map16 (md : Option Nat) (fuel d : Nat) (bs : List Nat) :
    decodeVal md (fuel + 1) d (0xde :: bs)
      = ebind (readBE 2 0 bs) (fun n r =>
          match checkDepth md (d + 1) with
          | .error e => .error e
          | .ok _ => emap .map (decodePairs (decodeVal md fuel (d + 1)) n r)) := by
  simp [decodeVal]

theorem decodeVal_map32 (md : Option Nat) (fuel d : Nat) (bs : List Nat) :
    decodeVal md (fuel + 1) d (0xdf :: bs)
      = ebind (readBE 4 0 bs) (fun n r =>
          match checkDepth md (d + 1) with
          | .error e => .error e
          | .ok _ => emap .map (decodePairs (decodeVal md fuel (d + 1)) n r)) := by
  simp [decodeVal]

theorem decodeVal_negfix (md : Option Nat) (fuel d : Nat) {b : Nat}
    (h1 : 0xe0 ≤ b) (h2 : b ≤ 0xff) (bs : List Nat) :
    decodeVal md (fuel + 1) d (b :: bs) = .ok (.int ((b : Int) - 2 ^ 8), bs) := by
  interval_cases b <;> simp [decodeVal]

theorem decodeVal_ext (md : Option Nat) (fuel d : Nat) {b : Nat}
    (h : isExtMarker b = true) (bs : List Nat) :
    decodeVal md (fuel + 1) d (b :: bs) = .error .invalidData := by
  simp only [isExtMarker, Bool.or_eq_true, Bool.and_eq_true, decide_eq_true_eq] at h
  rcases h with ⟨h1, h2⟩ | ⟨h1, h2⟩ <;> interval_cases b <;> simp [decodeVal]

/-! ## Round-trip: decoding an encoded value -/

theorem sizeV_pos (v : MVal) : 1 ≤ sizeV v := by
  cases v <;> simp [sizeV]

theorem depthLe_mono {md : Option Nat} {a b : Nat} (h : a ≤ b)
    (hb : depthLe md b = true) : depthLe md a = true := by
  cases md with
  | none => rfl
  | some m =>
    simp only [depthLe, decide_eq_true_eq] at hb ⊢
    omega

theorem checkDepth_ok {md : Option Nat} {d : Nat} (h : depthLe md d = true) :
    checkDepth md d = .ok () := by
  cases md with
  | none => rfl
  | some m =>
    simp only [depthLe, decide_eq_true_eq] at h
    simp [checkDepth, h]

theorem checkDepth_tooDeep {md : Option Nat} {d : Nat} (h : depthLe md d = false) :
    checkDepth md d = .error .tooDeep := by
  cases md with
  | none => simp [depthLe] at h
  | some m =>
    simp only [depthLe, decide_eq_false_iff_not] at h
    simp [checkDepth, h]

theorem toSigned_high {k m : Nat} (h : 2 ^ (8 * k - 1) ≤ m) :
    toSigned k m = (m : Int) - 2 ^ (8 * k) := by
  rw [toSigned, if_neg (Nat.not_lt.mpr h)]

/-- Decoding the concatenated encodings of a list of values, given the
round-trip property for each element at this fuel. -/
theorem decodeList_encodeL {md : Option Nat} {d fuel : Nat}
    (ih : ∀ v rest, reprV v = true → sizeV v ≤ fuel →
      depthLe md (d + depthV v) = true →
      decodeVal md fuel d (encodeVal v ++ rest) = .ok (v, rest)) :
    ∀ vs rest, reprL vs = true → sizeL vs ≤ fuel →
      depthLe md (d + depthL vs) = true →
      decodeList (decodeVal md fuel d) vs.length (encodeL vs ++ rest) = .ok (vs, rest) := by
  intro vs
  induction vs with
  | nil => intro rest _ _ _; simp [encodeL, decodeList]
  | cons v vs ihl =>
    intro rest hr hs hd
    simp only [reprL, Bool.and_eq_true] at hr
    simp only [sizeL] at hs
    simp only [depthL] at hd
    have hdv : depthLe md (d + depthV v) = true :=
      depthLe_mono (by omega) hd
    have hdvs : depthLe md (d + depthL vs) = true :=
      depthLe_mono (by omega) hd
    have e1 := ih v (encodeL vs ++ rest) hr.1 (by omega) hdv
    have e2 := ihl rest hr.2 (by omega) hdvs
    simp only [encodeL, List.append_assoc, List.length_cons, decodeList, e1, e2]

/-- Decoding the concatenated encodings of a list of key/value pairs, given
the round-trip property for each element at this fuel. -/
theorem decodePairs_encodeP {md : Option Nat} {d fuel : Nat}
    (ih : ∀ v rest, reprV v = true → sizeV v ≤ fuel →
      depthLe md (d + depthV v) = true →
      decodeVal md fuel d (encodeVal v ++ rest) = .ok (v, rest)) :
    ∀ kvs rest, reprP kvs = true → sizeP kvs ≤ fuel →
      depthLe md (d + depthP kvs) = true →
      decodePairs (decodeVal md fuel d) kvs.length (encodeP kvs ++ rest) = .ok (kvs, rest) := by
  intro kvs
  induction kvs with
  | nil => intro rest _ _ _; simp [encodeP, decodePairs]
  | cons kv kvs ihl =>
    obtain ⟨k, v⟩ := kv
    intro rest hr hs hd
    simp only [reprP, Bool.and_eq_true] at hr
    simp only [sizeP] at hs
    simp only [depthP] at hd
    have hdk : depthLe md (d + depthV k) = true :=
      depthLe_mono (by omega) hd
    have hdv : depthLe md (d + depthV v) = true :=
      depthLe_mono (by omega) hd
    have hdkvs : depthLe md (d + depthP kvs) = true :=
      depthLe_mono (by omega) hd
    have e1 := ih k (encodeVal v ++ (encodeP kvs ++ rest)) hr.1.1 (by omega) hdk
    have e2 := ih v (encodeP kvs ++ rest) hr.1.2 (by omega) hdv
    have e3 := ihl rest hr.2 (by omega) hdkvs
    simp only [encodeP, List.append_assoc, List.length_cons, decodePairs, e1, e2, e3]

/-- Round-trip at the heart of the codec: decoding the encoder's output
recovers the value, for any fuel at least `sizeV v` and any depth ceiling
respected by the value. -/
theorem decode_encode (fuel : Nat) : ∀ (md : Option Nat) (d : Nat) (v : MVal)
    (rest : List Nat), reprV v = true → sizeV v ≤ fuel →
    depthLe md (d + depthV v) = true →
    decodeVal md fuel d (encodeVal v ++ rest) = .ok (v, rest) := by
  induction fuel with
  | zero =>
    intro md d v rest _ hs _
    have := sizeV_pos v
    omega
  | succ fuel ih =>
    intro md d v rest hr hs hd
    cases v with
    | nil => simp [encodeVal, decodeVal_nil]
    | bool b =>
      cases b
      · simp [encodeVal, decodeVal_false]
      · simp [encodeVal, decodeVal_true]
    | uint n =>
      simp only [reprV, decide_eq_true_eq] at hr
      by_cases h1 : n ≤ 0x7f
      · simp [encodeVal, if_pos h1, decodeVal_fixuint md fuel d h1]
      · by_cases h2 : n < 2 ^ 8
        · simp only [encodeVal, if_neg h1, if_pos h2, List.cons_append]
          rw [decodeVal_uint8, readBE_beBytes_lt (by norm_num; omega) rest, emap_ok]
        · by_cases h3 : n < 2 ^ 16
          · simp only [encodeVal, if_neg h1, if_neg h2, if_pos h3, List.cons_append]
            rw [decodeVal_uint16, readBE_beBytes_lt (by norm_num; omega) rest, emap_ok]
          · by_cases h4 : n < 2 ^ 32
            · simp only [encodeVal, if_neg h1, if_neg h2, if_neg h3, if_pos h4,
                List.cons_append]
              rw [decodeVal_uint32, readBE_beBytes_lt (by norm_num; omega) rest, emap_ok]
            · simp only [encodeVal, if_neg h1, if_neg h2, if_neg h3, if_neg h4,
                List.cons_append]
              rw [decodeVal_uint64, readBE_beBytes_lt (by norm_num; omega) rest, emap_ok]
    | int i =>
      simp only [reprV, Bool.and_eq_true, decide_eq_true_eq] at hr
      by_cases h1 : -32 ≤ i
      · have hb1 : 0xe0 ≤ (i + 2 ^ 8).toNat := by omega
        have hb2 : (i + 2 ^ 8).toNat ≤ 0xff := by omega
        have hv : ((((i + 2 ^ 8).toNat : Nat) : Int) - 2 ^ 8) = i := by omega
        simp only [encodeVal, if_pos h1, List.cons_append, List.nil_append]
        rw [decodeVal_negfix md fuel d hb1 hb2, hv]
      · by_cases h2 : -(2 ^ 7) ≤ i
        · have hlt : (i + 2 ^ 8).toNat < 256 ^ 1 := by norm_num; omega
          have hhi : 2 ^ (8 * 1 - 1) ≤ (i + 2 ^ 8).toNat := by norm_num; omega
          have hv : toSigned 1 (i + 2 ^ 8).toNat = i := by
            rw [toSigned_high hhi]; norm_num; omega
          simp only [encodeVal, if_neg h1, if_pos h2, List.cons_append]
          rw [decodeVal_int8, readBE_beBytes_lt hlt rest, emap_ok, hv]
        · by_cases h3 : -(2 ^ 15) ≤ i
          · have hlt : (i + 2 ^ 16).toNat < 256 ^ 2 := by norm_num; omega
            have hhi : 2 ^ (8 * 2 - 1) ≤ (i + 2 ^ 16).toNat := by norm_num; omega
            have hv : toSigned 2 (i + 2 ^ 16).toNat = i := by
              rw [toSigned_high hhi]; norm_num; omega
            simp only [encodeVal, if_neg h1, if_neg h2, if_pos h3, List.cons_append]
            rw [decodeVal_int16, readBE_beBytes_lt hlt rest, emap_ok, hv]
          · by_cases h4 : -(2 ^ 31) ≤ i
            · have hlt : (i + 2 ^ 32).toNat < 256 ^ 4 := by norm_num; omega
              have hhi : 2 ^ (8 * 4 - 1) ≤ (i + 2 ^ 32).toNat := by norm_num; omega
              have hv : toSigned 4 (i + 2 ^ 32).toNat = i := by
                rw [toSigned_high hhi]; norm_num; omega
              simp only [encodeVal, if_neg h1, if_neg h2, if_neg h3, if_pos h4,
                List.cons_append]
              rw [decodeVal_int32, readBE_beBytes_lt hlt rest, emap_ok, hv]
            · have hlt : (i + 2 ^ 64).toNat < 256 ^ 8 := by norm_num; omega
              have hhi : 2 ^ (8 * 8 - 1) ≤ (i + 2 ^ 64).toNat := by norm_num; omega
              have hv : toSigned 8 (i + 2 ^ 64).toNat = i := by
                rw [toSigned_high hhi]; norm_num; omega
              simp only [encodeVal, if_neg h1, if_neg h2, if_neg h3, if_neg h4,
                List.cons_append]
              rw [decodeVal_int64, readBE_beBytes_lt hlt rest, emap_ok, hv]
    | float32 bits =>
      simp only [reprV, decide_eq_true_eq] at hr
      simp only [encodeVal, List.cons_append]
      rw [decodeVal_float, readBE_beBytes_lt (by norm_num; omega) rest, emap_ok]
    | float64 bits =>
      simp only [reprV, decide_eq_true_eq] at hr
      simp only [encodeVal, List.cons_append]
      rw [decodeVal_double, readBE_beBytes_lt (by norm_num; omega) rest, emap_ok]
    | str s =>
      simp only [reprV, Bool.and_eq_true, decide_eq_true_eq] at hr
      by_cases h1 : s.length ≤ 31
      · simp only [encodeVal, strHeader, if_pos h1, List.cons_append, List.nil_append,
          List.append_assoc]
        rw [decodeVal_fixstr md fuel d h1, takeExact_append, emap_ok]
      · by_cases h2 : s.length < 2 ^ 8
        · simp only [encodeVal, strHeader, if_neg h1, if_pos h2, List.cons_append,
            List.append_assoc]
          rw [decodeVal_str8, readBE_beBytes_lt (by norm_num; omega) (s ++ rest),
            ebind_ok, takeExact_append, emap_ok]
        · by_cases h3 : s.length < 2 ^ 16
          · simp only [encodeVal, strHeader, if_neg h1, if_neg h2, if_pos h3,
              List.cons_append, List.append_assoc]
            rw [decodeVal_str16, readBE_beBytes_lt (by norm_num; omega) (s ++ rest),
              ebind_ok, takeExact_append, emap_ok]
          · simp only [encodeVal, strHeader, if_neg h1, if_neg h2, if_neg h3,
              List.cons_append, List.append_assoc]
            rw [decodeVal_str32, readBE_beBytes_lt (by norm_num; omega) (s ++ rest),
              ebind_ok, takeExact_append, emap_ok]
    | bin s =>
      simp only [reprV, Bool.and_eq_true, decide_eq_true_eq] at hr
      by_cases h1 : s.length < 2 ^ 8
      · simp only [encodeVal, binHeader, if_pos h1, List.cons_append, List.append_assoc]
        rw [decodeVal_bin8, readBE_beBytes_lt (by norm_num; omega) (s ++ rest),
          ebind_ok, takeExact_append, emap_ok]
      · by_cases h2 : s.length < 2 ^ 16
        · simp only [encodeVal, binHeader, if_neg h1, if_pos h2, List.cons_append,
            List.append_assoc]
          rw [decodeVal_bin16, readBE_beBytes_lt (by norm_num; omega) (s ++ rest),
            ebind_ok, takeExact_append, emap_ok]
        · simp only [encodeVal, binHeader, if_neg h1, if_neg h2, List.cons_append,
            List.append_assoc]
          rw [decodeVal_bin32, readBE_beBytes_lt (by norm_num; omega) (s ++ rest),
            ebind_ok, takeExact_append, emap_ok]
    | arr vs =>
      simp only [reprV, Bool.and_eq_true, decide_eq_true_eq] at hr
      simp only [sizeV] at hs
      simp only [depthV] at hd
      have hck : checkDepth md (d + 1) = .ok () :=
        checkDepth_ok (depthLe_mono (by omega) hd)
      have hdl : depthLe md (d + 1 + depthL vs) = true :=
        depthLe_mono (by omega) hd
      have hlist := decodeList_encodeL (fun v r a b c => ih md (d + 1) v r a b c)
        vs rest hr.2 (by omega) hdl
      by_cases h1 : vs.length ≤ 15
      · simp only [encodeVal, arrHeader, if_pos h1, List.cons_append, List.nil_append,
          List.append_assoc]
        rw [decodeVal_fixarr md fuel d h1 hck, hlist, emap_ok]
      · by_cases h2 : vs.length < 2 ^ 16
        · simp only [encodeVal, arrHeader, if_neg h1, if_pos h2, List.cons_append,
            List.append_assoc]
          rw [decodeVal_arr16, readBE_beBytes_lt (by norm_num; omega) _, ebind_ok, hck]
          simp only [hlist, emap_ok]
        · simp only [encodeVal, arrHeader, if_neg h1, if_neg h2, List.cons_append,
            List.append_assoc]
          rw [decodeVal_arr32, readBE_beBytes_lt (by norm_num; omega) _, ebind_ok, hck]
          simp only [hlist, emap_ok]
    | map kvs =>
      simp only [reprV, Bool.and_eq_true, decide_eq_true_eq] at hr
      simp only [sizeV] at hs
      simp only [depthV] at hd
      have hck : checkDepth md (d + 1) = .ok () :=
        checkDepth_ok (depthLe_mono (by omega) hd)
      have hdl : depthLe md (d + 1 + depthP kvs) = true :=
        depthLe_mono (by omega) hd
      have hlist := decodePairs_encodeP (fun v r a b c => ih md (d + 1) v r a b c)
        kvs rest hr.2 (by omega) hdl
      by_cases h1 : kvs.length ≤ 15
      · simp only [encodeVal, mapHeader, if_pos h1, List.cons_append, List.nil_append,
          List.append_assoc]
        rw [decodeVal_fixmap md fuel d h1 hck, hlist, emap_ok]
      · by_cases h2 : kvs.length < 2 ^ 16
        · simp only [encodeVal, mapHeader, if_neg h1, if_pos h2, List.cons_append,
            List.append_assoc]
          rw [decodeVal_map16, readBE_beBytes_lt (by norm_num; omega) _, ebind_ok, hck]
          simp only [hlist, emap_ok]
        · simp only [encodeVal, mapHeader, if_neg h1, if_neg h2, List.cons_append,
            List.append_assoc]
          rw [decodeVal_map32, readBE_beBytes_lt (by norm_num; omega) _, ebind_ok, hck]
          simp only [hlist, emap_ok]

/-! ## Exceeding the depth ceiling -/

theorem decodeVal_fixmap_deep (md : Option Nat) (fuel d : Nat) {n : Nat} (h : n ≤ 15)
    (hd : checkDepth md (d + 1) = .error .tooDeep) (bs : List Nat) :
    decodeVal md (fuel + 1) d ((0x80 + n) :: bs) = .error .tooDeep := by
  have h1 : ¬(0x80 + n ≤ 0x7f) := by omega
  have h2 : 0x80 + n ≤ 0x8f := by omega
  simp only [decodeVal, if_neg h1, if_pos h2, hd]

theorem decodeVal_fixarr_deep (md : Option Nat) (fuel d : Nat) {n : Nat} (h : n ≤ 15)
    (hd : checkDepth md (d + 1) = .error .tooDeep) (bs : List Nat) :
    decodeVal md (fuel + 1) d ((0x90 + n) :: bs) = .error .tooDeep := by
  have h1 : ¬(0x90 + n ≤ 0x7f) := by omega
  have h2 : ¬(0x90 + n ≤ 0x8f) := by omega
  have h3 : 0x90 + n ≤ 0x9f := by omega
  simp only [decodeVal, if_neg h1, if_neg h2, if_pos h3, hd]

theorem decodeVal_arr16_deep (md : Option Nat) (fuel d : Nat)
    (hd : checkDepth md (d + 1) = .error .tooDeep) (bs : List Nat) :
    decodeVal md (fuel + 1) d (0xdc :: bs)
      = ebind (readBE 2 0 bs) fun _ _ => .error .tooDeep := by
  rw [decodeVal_arr16, hd]

theorem decodeVal_arr32_deep (md : Option Nat) (fuel d : Nat)
    (hd : checkDepth md (d + 1) = .error .tooDeep) (bs : List Nat) :
    decodeVal md (fuel + 1) d (0xdd :: bs)
      = ebind (readBE 4 0 bs) fun _ _ => .error .tooDeep := by
  rw [decodeVal_arr32, hd]

theorem decodeVal_map16_deep (md : Option Nat) (fuel d : Nat)
    (hd : checkDepth md (d + 1) = .error .tooDeep) (bs : List Nat) :
    decodeVal md (fuel + 1) d (0xde :: bs)
      = ebind (readBE 2 0 bs) fun _ _ => .error .tooDeep := by
  rw [decodeVal_map16, hd]

theorem decodeVal_map32_deep (md : Option Nat) (fuel d : Nat)
    (hd : checkDepth md (d + 1) = .error .tooDeep) (bs : List Nat) :
    decodeVal md (fuel + 1) d (0xdf :: bs)
      = ebind (readBE 4 0 bs) fun _ _ => .error .tooDeep := by
  rw [decodeVal_map32, hd]

/-- Among the encoded elements of a list, the first whose subtree pierces the
ceiling makes list decoding fail with `tooDeep`. -/
theorem decodeList_encodeL_deep {m d fuel : Nat}
    (ihS : ∀ v rest, reprV v = true → sizeV v ≤ fuel →
      depthLe (some m) (d + depthV v) = true →
      decodeVal (some m) fuel d (encodeVal v ++ rest) = .ok (v, rest))
    (ihF : ∀ v rest, reprV v = true → sizeV v ≤ fuel → d ≤ m →
      m < d + depthV v →
      decodeVal (some m) fuel d (encodeVal v ++ rest) = .error .tooDeep)
    (hdm : d ≤ m) :
    ∀ vs rest, reprL vs = true → sizeL vs ≤ fuel → m < d + depthL vs →
      decodeList (decodeVal (some m) fuel d) vs.length (encodeL vs ++ rest)
        = .error .tooDeep := by
  intro vs
  induction vs with
  | nil =>
    intro rest _ _ hdeep
    simp only [depthL] at hdeep
    omega
  | cons v vs ihl =>
    intro rest hr hs hdeep
    simp only [reprL, Bool.and_eq_true] at hr
    simp only [sizeL] at hs
    simp only [depthL] at hdeep
    by_cases hv : m < d + depthV v
    · have e1 := ihF v (encodeL vs ++ rest) hr.1 (by omega) hdm hv
      simp only [encodeL, List.append_assoc, List.length_cons, decodeList, e1]
    · have hok : depthLe (some m) (d + depthV v) = true := by
        simp only [depthLe, decide_eq_true_eq]
        omega
      have e1 := ihS v (encodeL vs ++ rest) hr.1 (by omega) hok
      have e2 := ihl rest hr.2 (by omega) (by omega)
      simp only [encodeL, List.append_assoc, List.length_cons, decodeList, e1, e2]

/-- Pair analogue of `decodeList_encodeL_deep`. -/
theorem decodePairs_encodeP_deep {m d fuel : Nat}
    (ihS : ∀ v rest, reprV v = true → sizeV v ≤ fuel →
      depthLe (some m) (d + depthV v) = true →
      decodeVal (some m) fuel d (encodeVal v ++ rest) = .ok (v, rest))
    (ihF : ∀ v rest, reprV v = true → sizeV v ≤ fuel → d ≤ m →
      m < d + depthV v →
      decodeVal (some m) fuel d (encodeVal v ++ rest) = .error .tooDeep)
    (hdm : d ≤ m) :
    ∀ kvs rest, reprP kvs = true → sizeP kvs ≤ fuel → m < d + depthP kvs →
      decodePairs (decodeVal (some m) fuel d) kvs.length (encodeP kvs ++ rest)
        = .error .tooDeep := by
  intro kvs
  induction kvs with
  | nil =>
    intro rest _ _ hdeep
    simp only [depthP] at hdeep
    omega
  | cons kv kvs ihl =>
    obtain ⟨k, v⟩ := kv
    intro rest hr hs hdeep
    simp only [reprP, Bool.and_eq_true] at hr
    simp only [sizeP] at hs
    simp only [depthP] at hdeep
    by_cases hk : m < d + depthV k
    · have e1 := ihF k (encodeVal v ++ (encodeP kvs ++ rest)) hr.1.1 (by omega) hdm hk
      simp only [encodeP, List.append_assoc, List.length_cons, decodePairs, e1]
    · have hokk : depthLe (some m) (d + depthV k) = true := by
        simp only [depthLe, decide_eq_true_eq]
        omega
      have e1 := ihS k (encodeVal v ++ (encodeP kvs ++ rest)) hr.1.1 (by omega) hokk
      by_cases hv : m < d + depthV v
      · have e2 := ihF v (encodeP kvs ++ rest) hr.1.2 (by omega) hdm hv
        simp only [encodeP, List.append_assoc, List.length_cons, decodePairs, e1, e2]
      · have hokv : depthLe (some m) (d + depthV v) = true := by
          simp only [depthLe, decide_eq_true_eq]
          omega
        have e2 := ihS v (encodeP kvs ++ rest) hr.1.2 (by omega) hokv
        have e3 := ihl rest hr.2 (by omega) (by omega)
        simp only [encodeP, List.append_assoc, List.length_cons, decodePairs, e1, e2, e3]

/-- Failure direction of the depth bound: a value whose nesting pierces the
ceiling makes the node parser fail with `tooDeep`. -/
theorem decode_encode_tooDeep (fuel : Nat) : ∀ (m d : Nat) (v : MVal)
    (rest : List Nat), reprV v = true → sizeV v ≤ fuel → d ≤ m →
    m < d + depthV v →
    decodeVal (some m) fuel d (encodeVal v ++ rest) = .error .tooDeep := by
  induction fuel with
  | zero =>
    intro m d v rest _ hs _ _
    have := sizeV_pos v
    omega
  | succ fuel ih =>
    intro m d v rest hr hs hdm hdeep
    cases v with
    | nil => simp only [depthV] at hdeep; omega
    | bool b => simp only [depthV] at hdeep; omega
    | uint n => simp only [depthV] at hdeep; omega
    | int i => simp only [depthV] at hdeep; omega
    | float32 bits => simp only [depthV] at hdeep; omega
    | float64 bits => simp only [depthV] at hdeep; omega
    | str s => simp only [depthV] at hdeep; omega
    | bin s => simp only [depthV] at hdeep; omega
    | arr vs =>
      simp only [reprV, Bool.and_eq_true, decide_eq_true_eq] at hr
      simp only [sizeV] at hs
      simp only [depthV] at hdeep
      by_cases hentry : d + 1 ≤ m
      · have hck : checkDepth (some m) (d + 1) = .ok () :=
          checkDepth_ok (by simp only [depthLe, decide_eq_true_eq]; omega)
        have hlist := decodeList_encodeL_deep
          (fun v r a b c => decode_encode fuel (some m) (d + 1) v r a b c)
          (fun v r a b c e => ih m (d + 1) v r a b c e) hentry vs rest hr.2
          (by omega) (by omega)
        by_cases h1 : vs.length ≤ 15
        · simp only [encodeVal, arrHeader, if_pos h1, List.cons_append,
            List.nil_append, List.append_assoc]
          rw [decodeVal_fixarr (some m) fuel d h1 hck, hlist, emap_error]
        · by_cases h2 : vs.length < 2 ^ 16
          · simp only [encodeVal, arrHeader, if_neg h1, if_pos h2,
              List.cons_append, List.append_assoc]
            rw [decodeVal_arr16, readBE_beBytes_lt (by norm_num; omega) _, ebind_ok]
            simp only [hck, hlist, emap_error]
          · simp only [encodeVal, arrHeader, if_neg h1, if_neg h2,
              List.cons_append, List.append_assoc]
            rw [decodeVal_arr32, readBE_beBytes_lt (by norm_num; omega) _, ebind_ok]
            simp only [hck, hlist, emap_error]
      · have hckE : checkDepth (some m) (d + 1) = .error .tooDeep :=
          checkDepth_tooDeep (by simp only [depthLe, decide_eq_false_iff_not]; omega)
        by_cases h1 : vs.length ≤ 15
        · simp only [encodeVal, arrHeader, if_pos h1, List.cons_append,
            List.nil_append, List.append_assoc]
          rw [decodeVal_fixarr_deep (some m) fuel d h1 hckE]
        · by_cases h2 : vs.length < 2 ^ 16
          · simp only [encodeVal, arrHeader, if_neg h1, if_pos h2,
              List.cons_append, List.append_assoc]
            rw [decodeVal_arr16_deep (some m) fuel d hckE,
              readBE_beBytes_lt (by norm_num; omega) _, ebind_ok]
          · simp only [encodeVal, arrHeader, if_neg h1, if_neg h2,
              List.cons_append, List.append_assoc]
            rw [decodeVal_arr32_deep (some m) fuel d hckE,
              readBE_beBytes_lt (by norm_num; omega) _, ebind_ok]
    | map kvs =>
      simp only [reprV, Bool.and_eq_true, decide_eq_true_eq] at hr
      simp only [sizeV] at hs
      simp only [depthV] at hdeep
      by_cases hentry : d + 1 ≤ m
      · have hck : checkDepth (some m) (d + 1) = .ok () :=
          checkDepth_ok (by simp only [depthLe, decide_eq_true_eq]; omega)
        have hlist := decodePairs_encodeP_deep
          (fun v r a b c => decode_encode fuel (some m) (d + 1) v r a b c)
          (fun v r a b c e => ih m (d + 1) v r a b c e) hentry kvs rest hr.2
          (by omega) (by omega)
        by_cases h1 : kvs.length ≤ 15
        · simp only [encodeVal, mapHeader, if_pos h1, List.cons_append,
            List.nil_append, List.append_assoc]
          rw [decodeVal_fixmap (some m) fuel d h1 hck, hlist, emap_error]
        · by_cases h2 : kvs.length < 2 ^ 16
          · simp only [encodeVal, mapHeader, if_neg h1, if_pos h2,
              List.cons_append, List.append_assoc]
            rw [decodeVal_map16, readBE_beBytes_lt (by norm_num; omega) _, ebind_ok]
            simp only [hck, hlist, emap_error]
          · simp only [encodeVal, mapHeader, if_neg h1, if_neg h2,
              List.cons_append, List.append_assoc]
            rw [decodeVal_map32, readBE_beBytes_lt (by norm_num; omega) _, ebind_ok]
            simp only [hck, hlist, emap_error]
      · have hckE : checkDepth (some m) (d + 1) = .error .tooDeep :=
          checkDepth_tooDeep (by simp only [depthLe, decide_eq_false_iff_not]; omega)
        by_cases h1 : kvs.length ≤ 15
        · simp only [encodeVal, mapHeader, if_pos h1, List.cons_append,
            List.nil_append, List.append_assoc]
          rw [decodeVal_fixmap_deep (some m) fuel d h1 hckE]
        · by_cases h2 : kvs.length < 2 ^ 16
          · simp only [encodeVal, mapHeader, if_neg h1, if_pos h2,
              List.cons_append, List.append_assoc]
            rw [decodeVal_map16_deep (some m) fuel d hckE,
              readBE_beBytes_lt (by norm_num; omega) _, ebind_ok]
          · simp only [encodeVal, mapHeader, if_neg h1, if_neg h2,
              List.cons_append, List.append_assoc]
            rw [decodeVal_map32_deep (some m) fuel d hckE,
              readBE_beBytes_lt (by norm_num; omega) _, ebind_ok]

/-- Claim C2: for every representable value of each supported type, decoding
the byte sequence produced by encoding it yields exactly that value; floats
and doubles are carried as raw IEEE-754 bit patterns, so the full pattern
(including NaN payload bits) is preserved. -/
theorem mpack_roundtrip (v : MVal) (h : reprV v = true) :
    decodeVal none (sizeV v) 0 (encodeVal v) = .ok (v, []) := by
  have e := decode_encode (sizeV v) none 0 v [] h (Nat.le_refl _) rfl
  simpa using e

theorem mpack_roundtrip_witness :
    reprV (MVal.arr [.float32 0x7fc00001, .map [(.str [97], .uint 300)]]) = true ∧
    decodeVal none (sizeV (MVal.arr [.float32 0x7fc00001, .map [(.str [97], .uint 300)]])) 0
        (encodeVal (MVal.arr [.float32 0x7fc00001, .map [(.str [97], .uint 300)]]))
      = .ok (MVal.arr [.float32 0x7fc00001, .map [(.str [97], .uint 300)]], []) :=
  ⟨by decide, mpack_roundtrip _ (by decide)⟩

/-- Claim C9: with the configured maximum depth (default
`MPACK_NODE_MAX_DEPTH_WITHOUT_MALLOC` = 32 when dynamic allocation is
unavailable), node-tree parsing of an otherwise well-formed input nested to
depth D fails with `tooDeep` exactly when D exceeds the maximum, and
succeeds whenever D is at or below it. -/
theorem node_parse_depth_bound (v : MVal) (fuel : Nat) (h : reprV v = true)
    (hf : sizeV v ≤ fuel) :
    (depthV v ≤ MPACK_NODE_MAX_DEPTH_WITHOUT_MALLOC defaultPreDef →
      decodeVal (some (MPACK_NODE_MAX_DEPTH_WITHOUT_MALLOC defaultPreDef)) fuel 0
        (encodeVal v) = .ok (v, [])) ∧
    (MPACK_NODE_MAX_DEPTH_WITHOUT_MALLOC defaultPreDef < depthV v →
      decodeVal (some (MPACK_NODE_MAX_DEPTH_WITHOUT_MALLOC defaultPreDef)) fuel 0
        (encodeVal v) = .error .tooDeep) := by
  have hM : MPACK_NODE_MAX_DEPTH_WITHOUT_MALLOC defaultPreDef = 32 := rfl
  rw [hM]
  constructor
  · intro hdep
    have e := decode_encode fuel (some 32) 0 v [] h hf
      (by simp only [depthLe, decide_eq_true_eq]; omega)
    simpa using e
  · intro hdep
    have e := decode_encode_tooDeep fuel 32 0 v [] h hf (by omega) (by omega)
    simpa using e

theorem node_parse_depth_bound_witness :
    reprV (nestArr 33) = true ∧ sizeV (nestArr 33) ≤ 34 ∧
    decodeVal (some (MPACK_NODE_MAX_DEPTH_WITHOUT_MALLOC defaultPreDef)) 34 0
      (encodeVal (nestArr 33)) = .error .tooDeep :=
  ⟨by decide, by decide,
   (node_parse_depth_bound (nestArr 33) 34 (by decide) (by decide)).2 (by decide)⟩

/-- Claim C7: with extensions disabled (the default configuration defines
`MPACK_EXTENSIONS` to 0), an ext tag encountered on decode — at top level or
nested inside a compound — fails with invalid-data; it is never skipped or
returned as a value. -/
theorem ext_disabled_invalid :
    MPACK_EXTENSIONS defaultPreDef = 0 ∧
    (∀ (md : Option Nat) (fuel d b : Nat) (rest : List Nat),
      isExtMarker b = true →
      decodeVal md (fuel + 1) d (b :: rest) = .error .invalidData) ∧
    (∀ (fuel d k b : Nat) (rest : List Nat), isExtMarker b = true →
      1 ≤ k → k ≤ 15 →
      decodeVal none (fuel + 2) d ((0x90 + k) :: b :: rest) = .error .invalidData) := by
  refine ⟨rfl, fun md fuel d b rest h => decodeVal_ext md fuel d h rest, ?_⟩
  intro fuel d k b rest h hk1 hk15
  obtain ⟨k1, rfl⟩ : ∃ k1, k = k1 + 1 := ⟨k - 1, by omega⟩
  rw [decodeVal_fixarr none (fuel + 1) d (by omega) rfl]
  simp only [decodeList, decodeVal_ext none fuel (d + 1) h rest, emap_error]

theorem ext_disabled_invalid_witness :
    isExtMarker 0xd4 = true ∧
    decodeVal none 1 0 [0xd4, 0, 0] = .error .invalidData ∧
    isExtMarker 0xc7 = true ∧ (1 : Nat) ≤ 1 ∧ (1 : Nat) ≤ 15 ∧
    decodeVal none 2 0 [0x91, 0xc7, 1, 0] = .error .invalidData :=
  ⟨by decide, ext_disabled_invalid.2.1 none 0 0 0xd4 [0, 0] (by decide),
   by decide, by decide, by decide,
   ext_disabled_invalid.2.2 0 0 1 0xc7 [1, 0] (by decide) (by decide) (by decide)⟩

/-- Claim C8: floats and doubles are encoded and decoded as raw IEEE-754 bit
patterns in fixed big-endian byte order; with floating point disabled, the
same tags pass through as raw unsigned bit patterns — read and written
without numeric interpretation, never rejected. -/
theorem float_passthrough :
    (∀ bits : Nat, encodeVal (.float32 bits) = 0xca :: beBytes 4 bits) ∧
    (∀ bits : Nat, encodeVal (.float64 bits) = 0xcb :: beBytes 8 bits) ∧
    (∀ (md : Option Nat) (fuel d bits : Nat) (rest : List Nat), bits < 2 ^ 32 →
      decodeVal md (fuel + 1) d (0xca :: beBytes 4 bits ++ rest)
        = .ok (.float32 bits, rest)) ∧
    (∀ (md : Option Nat) (fuel d bits : Nat) (rest : List Nat), bits < 2 ^ 64 →
      decodeVal md (fuel + 1) d (0xcb :: beBytes 8 bits ++ rest)
        = .ok (.float64 bits, rest)) ∧
    (∀ bits : Nat, bits < 2 ^ 32 →
      mpack_read_raw_float (mpack_write_raw_float bits) = .ok (bits, [])) ∧
    (∀ bits : Nat, bits < 2 ^ 64 →
      mpack_read_raw_double (mpack_write_raw_double bits) = .ok (bits, [])) := by
  refine ⟨fun bits => rfl, fun bits => rfl, ?_, ?_, ?_, ?_⟩
  · intro md fuel d bits rest h
    simp only [List.cons_append]
    rw [decodeVal_float, readBE_beBytes_lt (by norm_num; omega) rest, emap_ok]
  · intro md fuel d bits rest h
    simp only [List.cons_append]
    rw [decodeVal_double, readBE_beBytes_lt (by norm_num; omega) rest, emap_ok]
  · intro bits h
    rw [mpack_write_raw_float, mpack_read_raw_float,
      show beBytes 4 bits = beBytes 4 bits ++ [] from (List.append_nil _).symm,
      readBE_beBytes_lt (by norm_num; omega) []]
  · intro bits h
    rw [mpack_write_raw_double, mpack_read_raw_double,
      show beBytes 8 bits = beBytes 8 bits ++ [] from (List.append_nil _).symm,
      readBE_beBytes_lt (by norm_num; omega) []]

theorem float_passthrough_witness :
    (0x7fc00001 : Nat) < 2 ^ 32 ∧ (0x7ff8000000000001 : Nat) < 2 ^ 64 ∧
    mpack_read_raw_float (mpack_write_raw_float 0x7fc00001) = .ok (0x7fc00001, []) ∧
    mpack_read_raw_double (mpack_write_raw_double 0x7ff8000000000001)
      = .ok (0x7ff8000000000001, []) :=
  ⟨by decide, by decide,
   float_passthrough.2.2.2.2.1 0x7fc00001 (by decide),
   float_passthrough.2.2.2.2.2 0x7ff8000000000001 (by decide)⟩

theorem decode_uint_w1 {n : Nat} (h : n ≤ 0x7f) (md : Option Nat) (fuel d : Nat) :
    decodeVal md (fuel + 1) d [n] = .ok (.uint n, []) :=
  decodeVal_fixuint md fuel d h []

theorem decode_uint_w2 {n : Nat} (h : n < 2 ^ 8) (md : Option Nat) (fuel d : Nat) :
    decodeVal md (fuel + 1) d (0xcc :: beBytes 1 n) = .ok (.uint n, []) := by
  rw [decodeVal_uint8,
    show beBytes 1 n = beBytes 1 n ++ [] from (List.append_nil _).symm,
    readBE_beBytes_lt (by norm_num; omega) [], emap_ok]

theorem decode_uint_w3 {n : Nat} (h : n < 2 ^ 16) (md : Option Nat) (fuel d : Nat) :
    decodeVal md (fuel + 1) d (0xcd :: beBytes 2 n) = .ok (.uint n, []) := by
  rw [decodeVal_uint16,
    show beBytes 2 n = beBytes 2 n ++ [] from (List.append_nil _).symm,
    readBE_beBytes_lt (by norm_num; omega) [], emap_ok]

theorem decode_uint_w5 {n : Nat} (h : n < 2 ^ 32) (md : Option Nat) (fuel d : Nat) :
    decodeVal md (fuel + 1) d (0xce :: beBytes 4 n) = .ok (.uint n, []) := by
  rw [decodeVal_uint32,
    show beBytes 4 n = beBytes 4 n ++ [] from (List.append_nil _).symm,
    readBE_beBytes_lt (by norm_num; omega) [], emap_ok]

theorem decode_uint_w9 {n : Nat} (h : n < 2 ^ 64) (md : Option Nat) (fuel d : Nat) :
    decodeVal md (fuel + 1) d (0xcf :: beBytes 8 n) = .ok (.uint n, []) := by
  rw [decodeVal_uint64,
    show beBytes 8 n = beBytes 8 n ++ [] from (List.append_nil _).symm,
    readBE_beBytes_lt (by norm_num; omega) [], emap_ok]

theorem decode_int_w1 {i : Int} (h1 : -32 ≤ i) (h2 : i < 0)
    (md : Option Nat) (fuel d : Nat) :
    decodeVal md (fuel + 1) d [(i + 2 ^ 8).toNat] = .ok (.int i, []) := by
  have hv : (((i + 2 ^ 8).toNat : Int) - 2 ^ 8) = i := by omega
  rw [decodeVal_negfix md fuel d (by omega) (by omega), hv]

theorem decode_int_w2 {i : Int} (h1 : -(2 ^ 7) ≤ i) (h2 : i < 0)
    (md : Option Nat) (fuel d : Nat) :
    decodeVal md (fuel + 1) d (0xd0 :: beBytes 1 (i + 2 ^ 8).toNat)
      = .ok (.int i, []) := by
  rw [decodeVal_int8, readBE_beBytes_self (by norm_num; omega), emap_ok,
    toSigned_high (by norm_num; omega)]
  have hv : (((i + 2 ^ 8).toNat : Int) - 2 ^ (8 * 1)) = i := by norm_num; omega
  rw [hv]

theorem decode_int_w3 {i : Int} (h1 : -(2 ^ 15) ≤ i) (h2 : i < 0)
    (md : Option Nat) (fuel d : Nat) :
    decodeVal md (fuel + 1) d (0xd1 :: beBytes 2 (i + 2 ^ 16).toNat)
      = .ok (.int i, []) := by
  rw [decodeVal_int16, readBE_beBytes_self (by norm_num; omega), emap_ok,
    toSigned_high (by norm_num; omega)]
  have hv : (((i + 2 ^ 16).toNat : Int) - 2 ^ (8 * 2)) = i := by norm_num; omega
  rw [hv]

theorem decode_int_w5 {i : Int} (h1 : -(2 ^ 31) ≤ i) (h2 : i < 0)
    (md : Option Nat) (fuel d : Nat) :
    decodeVal md (fuel + 1) d (0xd2 :: beBytes 4 (i + 2 ^ 32).toNat)
      = .ok (.int i, []) := by
  rw [decodeVal_int32, readBE_beBytes_self (by norm_num; omega), emap_ok,
    toSigned_high (by norm_num; omega)]
  have hv : (((i + 2 ^ 32).toNat : Int) - 2 ^ (8 * 4)) = i := by norm_num; omega
  rw [hv]

theorem decode_int_w9 {i : Int} (h1 : -(2 ^ 63) ≤ i) (h2 : i < 0)
    (md : Option Nat) (fuel d : Nat) :
    decodeVal md (fuel + 1) d (0xd3 :: beBytes 8 (i + 2 ^ 64).toNat)
      = .ok (.int i, []) := by
  rw [decodeVal_int64, readBE_beBytes_self (by norm_num; omega), emap_ok,
    toSigned_high (by norm_num; omega)]
  have hv : (((i + 2 ^ 64).toNat : Int) - 2 ^ (8 * 8)) = i := by norm_num; omega
  rw [hv]

/-- Claim C3: the encoder deterministically picks the narrowest defined
MessagePack form whose range covers each integer value, the decoder accepts
every defined width representing the same value, and the spec's examples
hold: 127 encodes as a 1-byte fixint, 128 as a 2-byte uint8 tag, and the
string "abc" as a fixstr tag of length 3 followed by the 3 ASCII bytes. -/
theorem minimal_encoding :
    encodeVal (.uint 127) = [127] ∧ encodeVal (.uint 128) = [0xcc, 128] ∧
    encodeVal (.str [97, 98, 99]) = [0xa3, 97, 98, 99] ∧
    (∀ n : Nat, n < 2 ^ 64 →
      encodeVal (.uint n) ∈ uintWidths n ∧
      (∀ bs ∈ uintWidths n, ∀ (md : Option Nat) (fuel d : Nat),
        decodeVal md (fuel + 1) d bs = .ok (.uint n, [])) ∧
      (∀ bs ∈ uintWidths n, (encodeVal (.uint n)).length ≤ bs.length)) ∧
    (∀ i : Int, -(2 ^ 63) ≤ i → i < 0 →
      encodeVal (.int i) ∈ intWidths i ∧
      (∀ bs ∈ intWidths i, ∀ (md : Option Nat) (fuel d : Nat),
        decodeVal md (fuel + 1) d bs = .ok (.int i, [])) ∧
      (∀ bs ∈ intWidths i, (encodeVal (.int i)).length ≤ bs.length)) := by
  refine ⟨rfl, rfl, rfl, ?_, ?_⟩
  · intro n hn
    by_cases h1 : n ≤ 0x7f
    · have g1 : n ≤ 127 := by omega
      refine ⟨?_, ?_, ?_⟩
      · simp [uintWidths, encodeVal, g1]
      · intro bs hbs md fuel d
        simp only [uintWidths, h1, if_true, if_false] at hbs
        simp only [List.mem_cons, List.not_mem_nil, or_false] at hbs
        rcases hbs with rfl | rfl | rfl | rfl | rfl
        · exact decode_uint_w1 h1 md fuel d
        · exact decode_uint_w2 (by omega) md fuel d
        · exact decode_uint_w3 (by omega) md fuel d
        · exact decode_uint_w5 (by omega) md fuel d
        · exact decode_uint_w9 (by omega) md fuel d
      · intro bs hbs
        simp only [uintWidths, h1, if_true, if_false] at hbs
        simp only [List.mem_cons, List.not_mem_nil, or_false] at hbs
        rcases hbs with rfl | rfl | rfl | rfl | rfl <;>
          simp [encodeVal, g1, beBytes_length]
    ·
      by_cases h2 : n < 2 ^ 8
      · have g1 : ¬(n ≤ 127) := by omega
        have g2 : n < 256 := by omega
        refine ⟨?_, ?_, ?_⟩
        · simp [uintWidths, encodeVal, g1, g2]
        · intro bs hbs md fuel d
          simp only [uintWidths, h1, h2, if_true, if_false] at hbs
          simp only [List.mem_cons, List.not_mem_nil, or_false] at hbs
          rcases hbs with rfl | rfl | rfl | rfl
          · exact decode_uint_w2 h2 md fuel d
          · exact decode_uint_w3 (by omega) md fuel d
          · exact decode_uint_w5 (by omega) md fuel d
          · exact decode_uint_w9 (by omega) md fuel d
        · intro bs hbs
          simp only [uintWidths, h1, h2, if_true, if_false] at hbs
          simp only [List.mem_cons, List.not_mem_nil, or_false] at hbs
          rcases hbs with rfl | rfl | rfl | rfl <;>
            simp [encodeVal, g1, g2, beBytes_length]
      ·
        by_cases h3 : n < 2 ^ 16
        · have g1 : ¬(n ≤ 127) := by omega
          have g2 : ¬(n < 256) := by omega
          have g3 : n < 65536 := by omega
          refine ⟨?_, ?_, ?_⟩
          · simp [uintWidths, encodeVal, g1, g2, g3]
          · intro bs hbs md fuel d
            simp only [uintWidths, h1, h2, h3, if_true, if_false] at hbs
            simp only [List.mem_cons, List.not_mem_nil, or_false] at hbs
            rcases hbs with rfl | rfl | rfl
            · exact decode_uint_w3 h3 md fuel d
            · exact decode_uint_w5 (by omega) md fuel d
            · exact decode_uint_w9 (by omega) md fuel d
          · intro bs hbs
            simp only [uintWidths, h1, h2, h3, if_true, if_false] at hbs
            simp only [List.mem_cons, List.not_mem_nil, or_false] at hbs
            rcases hbs with rfl | rfl | rfl <;>
              simp [encodeVal, g1, g2, g3, beBytes_length]
        ·
          by_cases h4 : n < 2 ^ 32
          · have g1 : ¬(n ≤ 127) := by omega
            have g2 : ¬(n < 256) := by omega
            have g3 : ¬(n < 65536) := by omega
            have g4 : n < 4294967296 := by omega
            refine ⟨?_, ?_, ?_⟩
            · simp [uintWidths, encodeVal, g1, g2, g3, g4]
            · intro bs hbs md fuel d
              simp only [uintWidths, h1, h2, h3, h4, if_true, if_false] at hbs
              simp only [List.mem_cons, List.not_mem_nil, or_false] at hbs
              rcases hbs with rfl | rfl
              · exact decode_uint_w5 h4 md fuel d
              · exact decode_uint_w9 (by omega) md fuel d
            · intro bs hbs
              simp only [uintWidths, h1, h2, h3, h4, if_true, if_false] at hbs
              simp only [List.mem_cons, List.not_mem_nil, or_false] at hbs
              rcases hbs with rfl | rfl <;>
                simp [encodeVal, g1, g2, g3, g4, beBytes_length]
          · have g1 : ¬(n ≤ 127) := by omega
            have g2 : ¬(n < 256) := by omega
            have g3 : ¬(n < 65536) := by omega
            have g4 : ¬(n < 4294967296) := by omega
            refine ⟨?_, ?_, ?_⟩
            · simp [uintWidths, encodeVal, g1, g2, g3, g4]
            · intro bs hbs md fuel d
              simp only [uintWidths, h1, h2, h3, h4, if_true, if_false] at hbs
              simp only [List.mem_cons, List.not_mem_nil, or_false] at hbs
              subst hbs
              exact decode_uint_w9 hn md fuel d
            · intro bs hbs
              simp only [uintWidths, h1, h2, h3, h4, if_true, if_false] at hbs
              simp only [List.mem_cons, List.not_mem_nil, or_false] at hbs
              subst hbs
              simp [encodeVal, g1, g2, g3, g4, beBytes_length]
  · intro i hi1 hi2
    by_cases h1 : -32 ≤ i
    · have g1 : -32 ≤ i := by omega
      refine ⟨?_, ?_, ?_⟩
      · simp [intWidths, encodeVal, g1]
      · intro bs hbs md fuel d
        simp only [intWidths, h1, if_true, if_false] at hbs
        simp only [List.mem_cons, List.not_mem_nil, or_false] at hbs
        rcases hbs with rfl | rfl | rfl | rfl | rfl
        · exact decode_int_w1 h1 hi2 md fuel d
        · exact decode_int_w2 (by omega) hi2 md fuel d
        · exact decode_int_w3 (by omega) hi2 md fuel d
        · exact decode_int_w5 (by omega) hi2 md fuel d
        · exact decode_int_w9 (by omega) hi2 md fuel d
      · intro bs hbs
        simp only [intWidths, h1, if_true, if_false] at hbs
        simp only [List.mem_cons, List.not_mem_nil, or_false] at hbs
        rcases hbs with rfl | rfl | rfl | rfl | rfl <;>
          simp [encodeVal, g1, beBytes_length]
    ·
      by_cases h2 : -(2 ^ 7) ≤ i
      · have g1 : ¬(-32 ≤ i) := by omega
        have g2 : -128 ≤ i := by omega
        refine ⟨?_, ?_, ?_⟩
        · simp [intWidths, encodeVal, g1, g2]
        · intro bs hbs md fuel d
          simp only [intWidths, h1, h2, if_true, if_false] at hbs
          simp only [List.mem_cons, List.not_mem_nil, or_false] at hbs
          rcases hbs with rfl | rfl | rfl | rfl
          · exact decode_int_w2 h2 hi2 md fuel d
          · exact decode_int_w3 (by omega) hi2 md fuel d
          · exact decode_int_w5 (by omega) hi2 md fuel d
          · exact decode_int_w9 (by omega) hi2 md fuel d
        · intro bs hbs
          simp only [intWidths, h1, h2, if_true, if_false] at hbs
          simp only [List.mem_cons, List.not_mem_nil, or_false] at hbs
          rcases hbs with rfl | rfl | rfl | rfl <;>
            simp [encodeVal, g1, g2, beBytes_length]
      ·
        by_cases h3 : -(2 ^ 15) ≤ i
        · have g1 : ¬(-32 ≤ i) := by omega
          have g2 : ¬(-128 ≤ i) := by omega
          have g3 : -32768 ≤ i := by omega
          refine ⟨?_, ?_, ?_⟩
          · simp [intWidths, encodeVal, g1, g2, g3]
          · intro bs hbs md fuel d
            simp only [intWidths, h1, h2, h3, if_true, if_false] at hbs
            simp only [List.mem_cons, List.not_mem_nil, or_false] at hbs
            rcases hbs with rfl | rfl | rfl
            · exact decode_int_w3 h3 hi2 md fuel d
            · exact decode_int_w5 (by omega) hi2 md fuel d
            · exact decode_int_w9 (by omega) hi2 md fuel d
          · intro bs hbs
            simp only [intWidths, h1, h2, h3, if_true, if_false] at hbs
            simp only [List.mem_cons, List.not_mem_nil, or_false] at hbs
            rcases hbs with rfl | rfl | rfl <;>
              simp [encodeVal, g1, g2, g3, beBytes_length]
        ·
          by_cases h4 : -(2 ^ 31) ≤ i
          · have g1 : ¬(-32 ≤ i) := by omega
            have g2 : ¬(-128 ≤ i) := by omega
            have g3 : ¬(-32768 ≤ i) := by omega
            have g4 : -2147483648 ≤ i := by omega
            refine ⟨?_, ?_, ?_⟩
            · simp [intWidths, encodeVal, g1, g2, g3, g4]
            · intro bs hbs md fuel d
              simp only [intWidths, h1, h2, h3, h4, if_true, if_false] at hbs
              simp only [List.mem_cons, List.not_mem_nil, or_false] at hbs
              rcases hbs with rfl | rfl
              · exact decode_int_w5 h4 hi2 md fuel d
              · exact decode_int_w9 (by omega) hi2 md fuel d
            · intro bs hbs
              simp only [intWidths, h1, h2, h3, h4, if_true, if_false] at hbs
              simp only [List.mem_cons, List.not_mem_nil, or_false] at hbs
              rcases hbs with rfl | rfl <;>
                simp [encodeVal, g1, g2, g3, g4, beBytes_length]
          · have g1 : ¬(-32 ≤ i) := by omega
            have g2 : ¬(-128 ≤ i) := by omega
            have g3 : ¬(-32768 ≤ i) := by omega
            have g4 : ¬(-2147483648 ≤ i) := by omega
            refine ⟨?_, ?_, ?_⟩
            · simp [intWidths, encodeVal, g1, g2, g3, g4]
            · intro bs hbs md fuel d
              simp only [intWidths, h1, h2, h3, h4, if_true, if_false] at hbs
              simp only [List.mem_cons, List.not_mem_nil, or_false] at hbs
              subst hbs
              exact decode_int_w9 hi1 hi2 md fuel d
            · intro bs hbs
              simp only [intWidths, h1, h2, h3, h4, if_true, if_false] at hbs
              simp only [List.mem_cons, List.not_mem_nil, or_false] at hbs
              subst hbs
              simp [encodeVal, g1, g2, g3, g4, beBytes_length]

theorem minimal_encoding_witness :
    (1000 : Nat) < 2 ^ 64 ∧ -(2 ^ 63) ≤ (-1000 : Int) ∧ (-1000 : Int) < 0 ∧
    (encodeVal (.uint 1000) ∈ uintWidths 1000 ∧
      (∀ bs ∈ uintWidths 1000, ∀ (md : Option Nat) (fuel d : Nat),
        decodeVal md (fuel + 1) d bs = .ok (.uint 1000, [])) ∧
      (∀ bs ∈ uintWidths 1000, (encodeVal (.uint 1000)).length ≤ bs.length)) ∧
    (encodeVal (.int (-1000)) ∈ intWidths (-1000) ∧
      (∀ bs ∈ intWidths (-1000), ∀ (md : Option Nat) (fuel d : Nat),
        decodeVal md (fuel + 1) d bs = .ok (.int (-1000), [])) ∧
      (∀ bs ∈ intWidths (-1000), (encodeVal (.int (-1000))).length ≤ bs.length)) :=
  ⟨by decide, by decide, by decide,
   minimal_encoding.2.2.2.1 1000 (by decide),
   minimal_encoding.2.2.2.2 (-1000) (by decide) (by decide)⟩

theorem builder_append_flush (pageSize : Nat) (st : MBuilder) (bs : List Nat) :
    builder_flush (builder_append pageSize st bs) = builder_flush st ++ bs := by
  rw [builder_append]
  split_ifs <;> simp [builder_flush, List.flatten_append]

theorem builder_append_count (pageSize : Nat) (st : MBuilder) (bs : List Nat) :
    (builder_append pageSize st bs).count = st.count + 1 := by
  rw [builder_append]
  split_ifs <;> rfl

theorem builder_foldl (pageSize : Nat) : ∀ (vs : List MVal) (st : MBuilder),
    builder_flush (vs.foldl (fun st v => builder_append pageSize st (encodeVal v)) st)
      = builder_flush st ++ encodeL vs ∧
    (vs.foldl (fun st v => builder_append pageSize st (encodeVal v)) st).count
      = st.count + vs.length := by
  intro vs
  induction vs with
  | nil => intro st; simp [encodeL]
  | cons v vs ih =>
    intro st
    rw [List.foldl_cons]
    obtain ⟨ih1, ih2⟩ := ih (builder_append pageSize st (encodeVal v))
    constructor
    · rw [ih1, builder_append_flush, encodeL]
      simp [List.append_assoc]
    · rw [ih2, builder_append_count, List.length_cons]
      omega

/-- Claim C1: building an array through the deferred builder — with the
configured default page size (`MPACK_BUILDER_PAGE_SIZE` = 99) or any other
page size, i.e. regardless of how bytes split across pages — produces
byte-for-byte the output of directly writing an array tag with the final
count followed by the same values. -/
theorem builder_equivalence (vs : List MVal) :
    mpack_build_array (MPACK_BUILDER_PAGE_SIZE defaultPreDef) vs
      = encodeVal (.arr vs) ∧
    ∀ pageSize : Nat, mpack_build_array pageSize vs = encodeVal (.arr vs) := by
  have hmain : ∀ pageSize : Nat,
      mpack_build_array pageSize vs = encodeVal (.arr vs) := by
    intro pageSize
    have h := builder_foldl pageSize vs mpack_builder_begin
    rw [mpack_build_array]
    simp only [h.1, h.2]
    simp [mpack_builder_begin, builder_flush, encodeVal]
  exact ⟨hmain _, hmain⟩

theorem track_elements_exact (k : TrackKind) : ∀ (n r : Nat) (st : List TrackFrame),
    mpack_track_elements n (⟨k, n + r⟩ :: st) = .ok (⟨k, r⟩ :: st) := by
  intro n
  induction n with
  | zero => intro r st; simp [mpack_track_elements]
  | succ n ih =>
    intro r st
    have hne : n + 1 + r ≠ 0 := by omega
    have he : n + 1 + r - 1 = n + r := by omega
    have step : mpack_track_element (⟨k, n + 1 + r⟩ :: st) = .ok (⟨k, n + r⟩ :: st) := by
      simp [mpack_track_element, hne, he]
    rw [show mpack_track_elements (n + 1) (⟨k, n + 1 + r⟩ :: st) =
        (match mpack_track_element (⟨k, n + 1 + r⟩ :: st) with
         | .error e => .error e
         | .ok st1 => mpack_track_elements n st1) from rfl, step]
    exact ih r st

theorem track_elements_overflow (k : TrackKind) : ∀ (n : Nat) (st : List TrackFrame),
    mpack_track_elements (n + 1) (⟨k, n⟩ :: st) = .error .prematureWrite := by
  intro n
  induction n with
  | zero => intro st; rfl
  | succ n ih =>
    intro st
    have hne : n + 1 ≠ 0 := by omega
    have he : n + 1 - 1 = n := by omega
    have step : mpack_track_element (⟨k, n + 1⟩ :: st) = .ok (⟨k, n⟩ :: st) := by
      simp [mpack_track_element, hne, he]
    rw [show mpack_track_elements (n + 1 + 1) (⟨k, n + 1⟩ :: st) =
        (match mpack_track_element (⟨k, n + 1⟩ :: st) with
         | .error e => .error e
         | .ok st1 => mpack_track_elements (n + 1) st1) from rfl, step]
    exact ih st

/-- Claim C4: for a compound opened with declared count N, consuming exactly
N children and closing succeeds (restoring the outer stack); an (N+1)-th
element fails with a premature-write/overflow error; and closing while
remaining > 0 fails with a premature-close error instead of popping the
frame. -/
theorem tracking_symmetry (k : TrackKind) (N : Nat) (st : List TrackFrame) :
    (mpack_track_elements N (mpack_track_open k N st) = .ok (⟨k, 0⟩ :: st) ∧
      mpack_track_close (⟨k, 0⟩ :: st) = .ok st) ∧
    mpack_track_elements (N + 1) (mpack_track_open k N st)
      = .error .prematureWrite ∧
    (∀ f : TrackFrame, 0 < f.remaining →
      mpack_track_close (f :: st) = .error .prematureClose) := by
  refine ⟨⟨?_, ?_⟩, ?_, ?_⟩
  · have h := track_elements_exact k N 0 st
    simpa [mpack_track_open] using h
  · simp [mpack_track_close]
  · exact track_elements_overflow k N st
  · intro f hf
    have hne : f.remaining ≠ 0 := by omega
    cases f
    simp only [mpack_track_close, if_neg hne]

theorem tracking_symmetry_witness :
    (mpack_track_elements 2 (mpack_track_open .array 2 []) = .ok (⟨.array, 0⟩ :: []) ∧
      mpack_track_close (⟨.array, 0⟩ :: []) = .ok []) ∧
    mpack_track_elements 3 (mpack_track_open .array 2 []) = .error .prematureWrite ∧
    (0 : Nat) < 1 ∧
    mpack_track_close (⟨.str, 1⟩ :: []) = .error .prematureClose :=
  ⟨(tracking_symmetry .array 2 []).1,
   (tracking_symmetry .array 2 []).2.1,
   by decide,
   (tracking_symmetry .array 2 []).2.2 ⟨.str, 1⟩ (by decide)⟩

/-- Claim C5: once an instance has entered one of the sticky error states,
every subsequent operation — singly or in any sequence — returns that same
error and mutates no further state. -/
theorem sticky_error (s : MSession) (e : MErr) (h : s.err = some e) :
    (∀ op : MOp, session_step s op = (some e, s)) ∧
    (∀ ops : List MOp, session_run s ops = s) := by
  have hstep : ∀ op : MOp, session_step s op = (some e, s) := by
    intro op
    simp [session_step, h]
  refine ⟨hstep, ?_⟩
  intro ops
  induction ops with
  | nil => rfl
  | cons op ops ih => rw [session_run, hstep op, ih]

theorem sticky_error_witness :
    (MSession.mk (some .invalidData) [7] []).err = some .invalidData ∧
    (∀ op : MOp, session_step ⟨some .invalidData, [7], []⟩ op
      = (some .invalidData, ⟨some .invalidData, [7], []⟩)) ∧
    (∀ ops : List MOp, session_run ⟨some .invalidData, [7], []⟩ ops
      = ⟨some .invalidData, [7], []⟩) :=
  ⟨rfl, (sticky_error ⟨some .invalidData, [7], []⟩ .invalidData rfl).1,
   (sticky_error ⟨some .invalidData, [7], []⟩ .invalidData rfl).2⟩

/-! ## Configuration claims (C6 and C10) -/

/-- Claim C6: in the default-configuration logic, an undefined
`MPACK_BUILDER_PAGE_SIZE` is defined to 99 bytes, while
`MPACK_NODE_PAGE_SIZE` defaults to `MPACK_PAGE_SIZE` (4096); the common
page-size default is thus not applied to the builder page size, and the two
page-size defaults differ. -/
theorem builder_page_size_default :
    MPACK_BUILDER_PAGE_SIZE defaultPreDef = 99 ∧
    MPACK_NODE_PAGE_SIZE defaultPreDef = MPACK_PAGE_SIZE defaultPreDef ∧
    MPACK_PAGE_SIZE defaultPreDef = 4096 ∧
    MPACK_BUILDER_PAGE_SIZE defaultPreDef ≠ MPACK_NODE_PAGE_SIZE defaultPreDef ∧
    (∀ c : PreDef, c.builderPageSize = none → MPACK_BUILDER_PAGE_SIZE c = 99) := by
  refine ⟨rfl, rfl, rfl, by decide, ?_⟩
  intro c hc
  rw [MPACK_BUILDER_PAGE_SIZE, hc]
  rfl

theorem builder_page_size_default_witness :
    defaultPreDef.builderPageSize = none ∧
    MPACK_BUILDER_PAGE_SIZE defaultPreDef = 99 :=
  ⟨rfl, builder_page_size_default.2.2.2.2 defaultPreDef rfl⟩

/-- Claim C10: the defaults logic defines `MPACK_READ_TRACKING` (to 1)
exactly when it is not pre-defined, `MPACK_DEBUG` and `MPACK_READER` are
defined and nonzero, and `MPACK_MALLOC` is defined; symmetrically for
`MPACK_WRITE_TRACKING` with `MPACK_WRITER`; in every other non-pre-defined
configuration the tracking macro stays undefined. -/
theorem tracking_defaults (c : PreDef) :
    (c.readTracking = none →
      (MPACK_READ_TRACKING_defined c = some 1 ↔
        (MPACK_DEBUG_on c = true ∧ MPACK_READER c ≠ 0 ∧
          MPACK_MALLOC_defined c = true)) ∧
      (¬(MPACK_DEBUG_on c = true ∧ MPACK_READER c ≠ 0 ∧
          MPACK_MALLOC_defined c = true) →
        MPACK_READ_TRACKING_defined c = none)) ∧
    (c.writeTracking = none →
      (MPACK_WRITE_TRACKING_defined c = some 1 ↔
        (MPACK_DEBUG_on c = true ∧ MPACK_WRITER c ≠ 0 ∧
          MPACK_MALLOC_defined c = true)) ∧
      (¬(MPACK_DEBUG_on c = true ∧ MPACK_WRITER c ≠ 0 ∧
          MPACK_MALLOC_defined c = true) →
        MPACK_WRITE_TRACKING_defined c = none)) := by
  constructor
  · intro hpre
    rw [MPACK_READ_TRACKING_defined, hpre]
    by_cases hc : MPACK_DEBUG_on c = true ∧ MPACK_READER c ≠ 0 ∧
        MPACK_MALLOC_defined c = true
    · obtain ⟨h1, h2, h3⟩ := hc
      simp [h1, h2, h3]
    · constructor
      · rw [if_neg ?hcond]
        · exact iff_of_false (by simp) hc
        case hcond =>
          intro hb
          apply hc
          simp only [Bool.and_eq_true, bne_iff_ne, ne_eq] at hb
          exact ⟨hb.1.1, hb.1.2, hb.2⟩
      · intro _
        rw [if_neg ?hcond2]
        case hcond2 =>
          intro hb
          apply hc
          simp only [Bool.and_eq_true, bne_iff_ne, ne_eq] at hb
          exact ⟨hb.1.1, hb.1.2, hb.2⟩
  · intro hpre
    rw [MPACK_WRITE_TRACKING_defined, hpre]
    by_cases hc : MPACK_DEBUG_on c = true ∧ MPACK_WRITER c ≠ 0 ∧
        MPACK_MALLOC_defined c = true
    · obtain ⟨h1, h2, h3⟩ := hc
      simp [h1, h2, h3]
    · constructor
      · rw [if_neg ?hcond3]
        · exact iff_of_false (by simp) hc
        case hcond3 =>
          intro hb
          apply hc
          simp only [Bool.and_eq_true, bne_iff_ne, ne_eq] at hb
          exact ⟨hb.1.1, hb.1.2, hb.2⟩
      · intro _
        rw [if_neg ?hcond4]
        case hcond4 =>
          intro hb
          apply hc
          simp only [Bool.and_eq_true, bne_iff_ne, ne_eq] at hb
          exact ⟨hb.1.1, hb.1.2, hb.2⟩

theorem tracking_defaults_witness :
    defaultPreDef.readTracking = none ∧ defaultPreDef.writeTracking = none ∧
    MPACK_READ_TRACKING_defined defaultPreDef = none ∧
    MPACK_WRITE_TRACKING_defined defaultPreDef = none :=
  ⟨rfl, rfl,
   ((tracking_defaults defaultPreDef).1 rfl).2 (by decide),
   ((tracking_defaults defaultPreDef).2 rfl).2 (by decide)⟩
